import Mathlib

/-!
Verification development for the SAASH cluster-tracking code.

Shallow embedding of the two core source files:
* src/SAASH/util/neighborgrid.py  (class Neighborgrid)
* src/src/body/cluster.py         (Cluster, ClusterInfo, Observer, get_groups)

Real-valued quantities (positions, the interaction radius R, cell sizes) are
embedded as exact rationals; machine integers as ℤ/ℕ.  Python dictionaries
keyed by grid cells are embedded as total functions from cell index to the
(possibly empty) bucket list: a key is present in the dict exactly when its
bucket is nonempty, because addItemToMap only ever creates singleton buckets
and appends.  Fallible Python code (raise) is embedded with Except/Option.
-/

deriving instance DecidableEq for Except

unseal Rat.mul Rat.add Rat.sub Rat.inv

namespace SAASH

/-- Truncation toward zero: the semantics of numpy `astype(int)` on a float
value, used by convertPosToIndex (neighborgrid.py line 97). -/
def truncQ (q : ℚ) : ℤ := if q < 0 then ⌈q⌉ else ⌊q⌋

/-- A simulation body.  The Body class is an external collaborator (spec §6):
it carries a unique integer id and a D-dimensional position.  Python compares
bodies by object identity; with structurally distinct bodies (no duplicate
entries in a frame's body list) structural equality coincides with it. -/
structure Body where
  id : ℕ
  pos : List ℚ
deriving DecidableEq

/-- Modelled from the spec: the Body class with its method
`distance_to_body(other, domain_size)` is outside src/.  Per-axis
minimum-image displacement: the shortest displacement across domain wrap
boundaries, i.e. the representative of dx modulo L nearest to zero. -/
def minImage (dx L : ℚ) : ℚ := dx - L * (round (dx / L) : ℤ)

/-- Modelled from the spec: squared minimum-image distance between two
position vectors, summed over the axes of the domain-size vector. -/
def distSqMI (p q L : List ℚ) : ℚ :=
  ((List.range L.length).map
    (fun i => minImage (p.getD i 0 - q.getD i 0) (L.getD i 0) ^ 2)).sum

/-- Modelled from the spec: the strict comparison
`body_j.distance_to_body(body, domain_size) < R` of getNeighborhood
(neighborgrid.py line 126), embedded via squares: the Euclidean distance is
nonnegative and sqrt is monotone, so dist < R  ↔  0 < R ∧ dist² < R². -/
def distLtR (b1 b2 : Body) (L : List ℚ) (R : ℚ) : Bool :=
  decide (0 < R) && decide (distSqMI b1.pos b2.pos L < R ^ 2)

/-- The Neighborgrid object with the fields `__init__` stores
(neighborgrid.py lines 21-57). -/
structure Neighborgrid where
  lim : List (ℚ × ℚ)
  periodic : List Bool
  R : ℚ
  domain_size : List ℚ
  dim : ℕ
  numD : List ℤ
  boxSize : List ℚ
  shift : List ℚ
deriving DecidableEq

/-- Neighborgrid.__init__ (neighborgrid.py lines 21-57):
domain_size[i] = lim[i][1] - lim[i][0], dim = len(lim),
numD[i] = floor(domain_size[i] / (R/2)), boxSize[i] = domain_size[i]/numD[i],
shift[i] = -lim[i][0].

Failure mode: with R = 0 (and at least one axis), domain_size[i]/(R/2) is
±inf or nan in numpy, and assigning it into the integer array numD raises
(OverflowError / ValueError).  For R ≠ 0 every step succeeds: numD may be
zero or negative, and numpy computes boxSize = L/0 as ±inf/nan with only a
RuntimeWarning.  In this rational model a division by zero denotes 0; the
theorems about constructed grids carry the hypotheses (R > 0, numD ≥ 1)
under which no such division arises. -/
def mkGrid (lim : List (ℚ × ℚ)) (R : ℚ) (periodic : List Bool) :
    Except String Neighborgrid :=
  if R = 0 ∧ lim ≠ [] then
    .error "OverflowError: cannot convert float infinity to integer"
  else
    .ok { lim := lim
          periodic := periodic
          R := R
          domain_size := lim.map (fun p => p.2 - p.1)
          dim := lim.length
          numD := lim.map (fun p => ⌊(p.2 - p.1) / (R / 2)⌋)
          boxSize := lim.map
            (fun p => (p.2 - p.1) / ((⌊(p.2 - p.1) / (R / 2)⌋ : ℤ) : ℚ))
          shift := lim.map (fun p => -p.1) }

/-- The vectorized bounds check of convertPosToIndex (neighborgrid.py
line 85): true when every coordinate (of the first dim entries of the
position) lies inside [lim[i][0], lim[i][1]].  The check runs on every axis,
periodic or not. -/
def inBoundsB (g : Neighborgrid) (b : Body) : Bool :=
  !((List.range g.dim).any (fun i =>
      decide (b.pos.getD i 0 < (g.lim.getD i (0, 0)).1) ||
      decide (b.pos.getD i 0 > (g.lim.getD i (0, 0)).2)))

/-- The index computation of convertPosToIndex (neighborgrid.py line 97),
written per axis as in the commented loop version (lines 91-94):
index[i] = int((position[i] + shift[i]) / boxSize[i]), truncated toward
zero by astype(int). -/
def cellIndexD (g : Neighborgrid) (b : Body) : List ℤ :=
  (List.range g.dim).map
    (fun i => truncQ ((b.pos.getD i 0 + g.shift.getD i 0) / g.boxSize.getD i 0))

/-- convertPosToIndex (neighborgrid.py lines 72-99): bounds check, then the
cell index of the body's position. -/
def convertPosToIndex (g : Neighborgrid) (b : Body) : Except String (List ℤ) :=
  if inBoundsB g b then .ok (cellIndexD g b)
  else .error "Particle is outside the set bounds"

/-- The grid's cell-to-bucket dictionary. -/
def GridMap := List ℤ → List Body

def emptyMap : GridMap := fun _ => []

/-- addItemToMap (neighborgrid.py lines 103-109).  Both branches of the
Python code amount to appending: an existing bucket gets the value appended,
a missing key gets the singleton bucket [value]. -/
def addItemToMap (m : GridMap) (key : List ℤ) (value : Body) : GridMap :=
  fun c => if c = key then m c ++ [value] else m c

/-- The insertion loop of update (neighborgrid.py lines 67-69), processing
bodies left to right; the first out-of-bounds body raises ValueError, which
aborts the loop leaving the partially rebuilt map. -/
def updateAux (g : Neighborgrid) : List Body → GridMap → GridMap × Option String
  | [], m => (m, none)
  | b :: rest, m =>
    match convertPosToIndex g b with
    | .error e => (m, some e)
    | .ok key => updateAux g rest (addItemToMap m key b)

/-- update (neighborgrid.py lines 60-69): clears the map, then inserts every
body at its cell index.  Returns the map state after the call together with
the error, if any, that aborted it. -/
def update (g : Neighborgrid) (bodies : List Body) : GridMap × Option String :=
  updateAux g bodies emptyMap

/-- indexAdjustment (neighborgrid.py line 57):
itertools.product([-2,-1,0,1,2], repeat=dim). -/
def indexAdjustment : ℕ → List (List ℤ)
  | 0 => [[]]
  | n + 1 =>
    (([-2, -1, 0, 1, 2] : List ℤ).map
      (fun a => (indexAdjustment n).map (fun t => a :: t))).flatten

/-- AdjacentBoxes (neighborgrid.py lines 132-151):
neighborBox[i] = (centerBox[i] + boxAdjustment[i]) % numD[i] for each offset
tuple.  Lean's Int.emod agrees with Python's % for the positive moduli that
arise from constructed grids with numD ≥ 1 (Python raises ZeroDivisionError
when numD[i] = 0; the theorems assume numD ≥ 1). -/
def AdjacentBoxes (g : Neighborgrid) (centerBox : List ℤ) : List (List ℤ) :=
  (indexAdjustment g.dim).map (fun off =>
    (List.range g.dim).map
      (fun i => (centerBox.getD i 0 + off.getD i 0) % g.numD.getD i 0))

/-- getNeighborhood (neighborgrid.py lines 112-129): compute the body's cell
(raising if out of bounds), scan the 5^dim adjacent cells, and keep every
body in those buckets that is not the query body and is within distance R.
An absent key is a cell whose bucket is empty, over which the inner loop
collects nothing. -/
def getNeighborhood (g : Neighborgrid) (m : GridMap) (body : Body) :
    Except String (List Body) :=
  match convertPosToIndex g body with
  | .error e => .error e
  | .ok centerBox =>
    .ok (((AdjacentBoxes g centerBox).map (fun box =>
      (m box).filter
        (fun bj => decide (body ≠ bj) && distLtR bj body g.domain_size g.R))).flatten)

/-- Spec-side reference definition (spec §8, "Grid correctness"): the
brute-force O(N²) scan collecting every other body whose periodic
minimum-image distance to the query body is strictly below R. -/
def bruteForceNeighbors (bodies : List Body) (body : Body) (L : List ℚ) (R : ℚ) :
    List Body :=
  bodies.filter (fun bj => decide (body ≠ bj) && distLtR bj body L R)

/-- Whether an Except value is a success. -/
def isOkE {α : Type} : Except String α → Bool
  | .ok _ => true
  | .error _ => false

/-! ## cluster.py: Cluster, ClusterInfo, Observer -/

/-- The fields of the Cluster class that ClusterInfo reads
(cluster.py lines 35-136): the member body list (get_bodies,
get_body_positions), the cluster id and the last-updated frame. -/
structure Cluster where
  bodies : List Body
  cluster_index : ℤ
  last_updated : ℤ
deriving DecidableEq

/-- One observable snapshot: the dictionary built by __compute_coordinate,
whose keys range over num_bodies, positions and monomer_fraction.  A key is
present exactly when its field is `some`. -/
structure PropertyDict where
  num_bodies : Option ℕ
  positions : Option (List (List ℚ))
  monomer_fraction : Option ℚ
deriving DecidableEq

def emptyPD : PropertyDict := ⟨none, none, none⟩

/-- The loop of ClusterInfo.__compute_coordinate (cluster.py lines 247-278)
over the observer's observable set: "num_bodies" stores the body count,
"positions" the list of member positions, anything else raises.  (The Python
`raise "..."` of a bare string is itself a TypeError, still a hard error at
snapshot-compute time.)  The observable set is modelled as the list of its
elements; iteration order does not affect the result. -/
def computeAux (cluster : Cluster) : List String → PropertyDict →
    Except String PropertyDict
  | [], d => .ok d
  | obs :: rest, d =>
    if obs = "num_bodies" then
      computeAux cluster rest { d with num_bodies := some cluster.bodies.length }
    else if obs = "positions" then
      computeAux cluster rest { d with positions := some (cluster.bodies.map Body.pos) }
    else
      .error "The requested property is not implemented"

/-- ClusterInfo.__compute_coordinate (cluster.py lines 247-278). -/
def compute_coordinate (observer : List String) (cluster : Cluster) :
    Except String PropertyDict :=
  computeAux cluster observer emptyPD

/-- The mutable state of a ClusterInfo object (cluster.py lines 141-161),
together with its observer (the Observer's observable set). -/
structure ClusterInfo where
  birth_frame : ℤ
  death_frame : ℤ
  last_updated : ℤ
  lifetime : ℤ
  is_dead : Bool
  has_parent : Bool
  observer : List String
  stored_data : List PropertyDict
  from_monomer : List (PropertyDict × ℕ)
  to_monomer : List (PropertyDict × ℕ)
deriving DecidableEq

namespace ClusterInfo

/-- ClusterInfo.update_data (cluster.py lines 187-201): if frame_num is
strictly greater than the last update and the record is not dead, append the
computed snapshot (with the monomer fraction stamped onto it) and advance
last_updated; otherwise do nothing.  An error raised while computing the
snapshot aborts before anything is appended. -/
def update_data (ci : ClusterInfo) (cluster : Cluster) (frame_num : ℤ)
    (monomer_frac : ℚ) : Except String ClusterInfo :=
  if ci.last_updated < frame_num ∧ ci.is_dead = false then
    (compute_coordinate ci.observer cluster).map (fun pd =>
      { ci with
        stored_data := ci.stored_data ++ [{ pd with monomer_fraction := some monomer_frac }]
        last_updated := frame_num })
  else .ok ci

/-- ClusterInfo.__init__ (cluster.py lines 141-161): birth_frame = frame_num,
death_frame = -1, last_updated = -1, lifetime = -1, alive, no parent, empty
storage, then one update_data call with the construction frame. -/
def init (cluster : Cluster) (frame_num : ℤ) (monomer_frac : ℚ)
    (observer : List String) : Except String ClusterInfo :=
  update_data
    { birth_frame := frame_num
      death_frame := -1
      last_updated := -1
      lifetime := -1
      is_dead := false
      has_parent := false
      observer := observer
      stored_data := []
      from_monomer := []
      to_monomer := [] }
    cluster frame_num monomer_frac

/-- ClusterInfo.kill (cluster.py lines 178-185): set the death frame,
compute lifetime = death_frame - birth_frame, set the dead flag. -/
def kill (ci : ClusterInfo) (frame_num : ℤ) : ClusterInfo :=
  { ci with
    death_frame := frame_num
    lifetime := frame_num - ci.birth_frame
    is_dead := true }

/-- ClusterInfo.set_parent (cluster.py lines 169-176): insert a snapshot of
the given cluster at the front of stored_data, only once.  No dead check. -/
def set_parent (ci : ClusterInfo) (cluster : Cluster) : Except String ClusterInfo :=
  if ci.has_parent = false then
    (compute_coordinate ci.observer cluster).map (fun pd =>
      { ci with stored_data := pd :: ci.stored_data, has_parent := true })
  else .ok ci

/-- ClusterInfo.add_monomers (cluster.py lines 203-212): append the snapshot
(with monomer fraction stamped on) and the monomer count to from_monomer.
No dead check. -/
def add_monomers (ci : ClusterInfo) (cluster : Cluster) (num_monomers : ℕ)
    (monomer_frac : ℚ) : Except String ClusterInfo :=
  (compute_coordinate ci.observer cluster).map (fun pd =>
    { ci with from_monomer :=
        ci.from_monomer ++ [({ pd with monomer_fraction := some monomer_frac }, num_monomers)] })

/-- ClusterInfo.remove_monomers (cluster.py lines 214-218): append the
snapshot and the count to to_monomer.  No dead check. -/
def remove_monomers (ci : ClusterInfo) (cluster : Cluster) (num_monomers : ℕ) :
    Except String ClusterInfo :=
  (compute_coordinate ci.observer cluster).map (fun pd =>
    { ci with to_monomer := ci.to_monomer ++ [(pd, num_monomers)] })

end ClusterInfo

/-- An observable set containing only recognized names
(spec: {"num_bodies", "positions"}). -/
def recognizedOnly (observer : List String) : Prop :=
  ∀ s ∈ observer, s = "num_bodies" ∨ s = "positions"

instance decRecognizedOnly (observer : List String) :
    Decidable (recognizedOnly observer) :=
  List.decidableBAll _ observer

/-- One step of a ClusterInfo's life after construction, as exercised by the
frame-tracking driver: an update_data call, or a kill. -/
inductive CIOp where
  | upd (cluster : Cluster) (frame : ℤ) (mf : ℚ)
  | kil (frame : ℤ)
deriving DecidableEq

/-- Apply a sequence of update_data/kill calls to a ClusterInfo. -/
def applyOps (ci : ClusterInfo) : List CIOp → Except String ClusterInfo
  | [] => .ok ci
  | .upd c f mf :: rest => ci.update_data c f mf >>= fun ci' => applyOps ci' rest
  | .kil f :: rest => applyOps (ci.kill f) rest

/-- Spec-side count (spec §8, "Monotonic snapshot recording"): the number of
update_data calls whose frame number strictly exceeds every frame number
passed before them (starting from the sentinel `last`), counted only while
the record is alive (a kill stops the count). -/
def countRecorded (last : ℤ) : List CIOp → ℕ
  | [] => 0
  | .upd _ f _ :: rest =>
    if last < f then 1 + countRecorded f rest else countRecorded last rest
  | .kil _ :: _ => 0

/-! ## cluster.py: get_groups (bond dict → connected groups)

The bond dictionary has keys exactly 0..N-1 (spec §4.2), so it is embedded
as the list of its adjacency lists, indexed by body id; N is its length.
A Python list indexing operation accepts one negative wrap (l[-k] = l[len-k])
and raises IndexError otherwise; `pyIdx` models that. -/

/-- Resolve a (possibly negative) Python list index against a length. -/
def pyIdx (n : ℕ) (i : ℤ) : Option ℕ :=
  let j : ℤ := if i < 0 then i + n else i
  if 0 ≤ j ∧ j < (n : ℤ) then some j.toNat else none

/-- The loop state of get_groups (cluster.py lines 322-376): the queue, the
searched dump, the group list G and the body→group map to_group. -/
structure GGState where
  queue : List ℕ
  searched : List ℕ
  G : List (List ℕ)
  to_group : List ℤ
deriving DecidableEq

/-- The body of the inner `for member in adj_list` loop (cluster.py lines
350-359): if the member is not yet in G[group_num], append it there and set
its mapping (a numpy write that raises IndexError when member ≥ N); then, if
the member is neither searched nor queued, enqueue it. -/
def ggMember (gn : ℤ) (member : ℕ) (s : GGState) : Except String GGState :=
  match pyIdx s.G.length gn with
  | none => .error "IndexError: group list"
  | some g =>
    let glist := s.G.getD g []
    (if member ∈ glist then Except.ok s
     else if member < s.to_group.length then
       Except.ok { s with G := s.G.set g (glist ++ [member])
                          to_group := s.to_group.set member gn }
     else Except.error "IndexError: to_group write").map (fun s1 =>
      if member ∉ s1.searched ∧ member ∉ s1.queue then
        { s1 with queue := s1.queue ++ [member] }
      else s1)

/-- The inner loop over the adjacency list, left to right. -/
def ggInner (gn : ℤ) : List ℕ → GGState → Except String GGState
  | [], s => .ok s
  | m :: rest, s => ggMember gn m s >>= ggInner gn rest

/-- One iteration of the while loop of get_groups (cluster.py lines 340-373),
applied to the popped body `bod` and the remaining queue `rest`:
look up group_num = to_group[bod] and adj_list = bond_dict[bod] (a KeyError
if bod is not a key), run the inner loop, append bod to searched, and if the
queue is then empty while len(searched) ≠ total_states, seed a new group at
the first unassigned id (np.where(to_group == -1)[0][0], an IndexError when
none exists). -/
def ggStep (bond_dict : List (List ℕ)) (total_states : ℕ) (bod : ℕ)
    (rest : List ℕ) (s : GGState) : Except String GGState :=
  if hb : bod < s.to_group.length then
    let group_num := s.to_group[bod]
    match bond_dict.get? bod with
    | none => .error "KeyError: bond_dict"
    | some adj_list =>
      (ggInner group_num adj_list { s with queue := rest }).bind (fun s1 =>
        let s2 := { s1 with searched := s1.searched ++ [bod] }
        if s2.queue = [] ∧ s2.searched.length ≠ total_states then
          match s2.to_group.findIdx? (fun v => v = -1) with
          | some u =>
            .ok { s2 with G := s2.G ++ [[u]]
                          to_group := s2.to_group.set u s2.G.length
                          queue := [u] }
          | none => .error "IndexError: np.where(to_group == -1) is empty"
        else .ok s2)
  else .error "IndexError: to_group read"

/-- The while loop of get_groups, with an explicit iteration bound: each
iteration pops one queue element and appends one entry to searched, and the
searched list never exceeds 2N entries (each body is processed at most twice,
a second time only via a self-loop), so 3N+4 iterations always suffice; the
bound is proved, under the partition preconditions, in the theorems below. -/
def ggLoop (bond_dict : List (List ℕ)) (total_states : ℕ) :
    ℕ → GGState → Except String (List (List ℕ))
  | 0, _ => .error "loop bound exceeded"
  | fuel + 1, s =>
    match s.queue with
    | [] => .ok s.G
    | bod :: rest => ggStep bond_dict total_states bod rest s >>=
        ggLoop bond_dict total_states fuel

/-- get_groups (cluster.py lines 322-376).  total_states = number of keys;
to_group = -1 * np.ones(total_states) with to_group[0] = 0 — the write to
element 0 raises IndexError when the dictionary is empty; G = [[0]],
queue = [0], searched = []. -/
def get_groups (bond_dict : List (List ℕ)) : Except String (List (List ℕ)) :=
  let total_states := bond_dict.length
  if total_states = 0 then
    .error "IndexError: to_group[0] write on an empty array"
  else
    ggLoop bond_dict total_states (3 * total_states + 4)
      { queue := [0]
        searched := []
        G := [[0]]
        to_group := (List.replicate total_states (-1)).set 0 0 }

/-- The step relation of the bond graph: a is bonded to b when b appears in
a's adjacency list.  With a symmetric bond dictionary this relation is
symmetric.  Reachability (connectedness) is its reflexive-transitive
closure. -/
def Bonded (bond_dict : List (List ℕ)) (a b : ℕ) : Prop :=
  b ∈ bond_dict.getD a []

/-- Connectedness of two ids via the bond relation. -/
def Connected (bond_dict : List (List ℕ)) : ℕ → ℕ → Prop :=
  Relation.ReflTransGen (Bonded bond_dict)

/-- The to_group value of body x in a get_groups loop state
(default -1, the unassigned sentinel). -/
def tgOf (s : GGState) (x : ℕ) : ℤ := s.to_group.getD x (-1)

/-- The loop invariant of get_groups.  `ex` is the list of bodies currently
being processed (the popped body during an iteration, empty between
iterations): an assigned body is searched, queued, or being processed;
a searched body's neighbors are all assigned and themselves searched,
queued, or being processed; to_group and the group list G index each other;
each group is connected and distinct groups are not connected. -/
structure GGInv (bd : List (List ℕ)) (ex : List ℕ) (s : GGState) : Prop where
  tglen : s.to_group.length = bd.length
  qlt : ∀ x ∈ s.queue, x < bd.length
  qass : ∀ x ∈ s.queue, tgOf s x ≠ -1
  qnd : s.queue.Nodup
  snd : s.searched.Nodup
  slt : ∀ x ∈ s.searched, x < bd.length
  sdisj : ∀ x ∈ s.searched, x ∉ s.queue
  sass : ∀ x ∈ s.searched, tgOf s x ≠ -1
  tgmem : ∀ x, x < bd.length → tgOf s x ≠ -1 →
    ∃ gi : ℕ, gi < s.G.length ∧ tgOf s x = (gi : ℤ) ∧ x ∈ s.G.getD gi []
  memtg : ∀ gi : ℕ, gi < s.G.length → ∀ x ∈ s.G.getD gi [],
    x < bd.length ∧ tgOf s x = (gi : ℤ)
  assq : ∀ x, x < bd.length → tgOf s x ≠ -1 →
    x ∈ s.searched ∨ x ∈ s.queue ∨ x ∈ ex
  sadj : ∀ x ∈ s.searched, ∀ m ∈ bd.getD x [],
    tgOf s m ≠ -1 ∧ (m ∈ s.searched ∨ m ∈ s.queue ∨ m ∈ ex)
  conn : ∀ gi : ℕ, gi < s.G.length → ∀ x ∈ s.G.getD gi [], ∀ y ∈ s.G.getD gi [],
    Connected bd x y
  sep : ∀ gi gj : ℕ, gi < s.G.length → gj < s.G.length → gi ≠ gj →
    ∀ x ∈ s.G.getD gi [], ∀ y ∈ s.G.getD gj [], ¬ Connected bd x y

/-! ## Concrete test fixtures -/

/-- The grid constructed on the domain [0,10] with R = 1 (one axis,
non-periodic): numD = 20, boxSize = 1/2. -/
def g0 : Neighborgrid :=
  { lim := [((0 : ℚ), 10)], periodic := [false], R := 1,
    domain_size := [10], dim := 1, numD := [20], boxSize := [1/2], shift := [0] }

/-- A grid the claim C6 says cannot be constructed: R = -1 on [0,10]. -/
def g6cex : Neighborgrid :=
  { lim := [((0 : ℚ), 10)], periodic := [false], R := -1,
    domain_size := [10], dim := 1, numD := [-20], boxSize := [-1/2], shift := [0] }

/-- A successfully constructed grid with inverted bounds [0,-1] and R = 4:
its cell size (-1)/(-1) = 1 is smaller than R/2 = 2. -/
def g7cex : Neighborgrid :=
  { lim := [((0 : ℚ), -1)], periodic := [false], R := 4,
    domain_size := [-1], dim := 1, numD := [-1], boxSize := [1], shift := [0] }

/-- A copy of the fixture grid g0 that declares its axis periodic. -/
def g0p : Neighborgrid :=
  { lim := [((0 : ℚ), 10)], periodic := [true], R := 1,
    domain_size := [10], dim := 1, numD := [20], boxSize := [1/2], shift := [0] }

/-- A two-body cluster used to exercise ClusterInfo. -/
def clA : Cluster := ⟨[⟨0, [1]⟩, ⟨1, [2]⟩], 0, 0⟩

/-- The ClusterInfo produced by ClusterInfo.init clA 0 0 [] (no observables
requested): one stored snapshot carrying only the monomer fraction. -/
def ciA : ClusterInfo :=
  { birth_frame := 0, death_frame := -1, last_updated := 0, lifetime := -1,
    is_dead := false, has_parent := false, observer := [],
    stored_data := [⟨none, none, some 0⟩], from_monomer := [], to_monomer := [] }

/-- A live ClusterInfo requesting only the recognized observable
num_bodies. -/
def ciB : ClusterInfo :=
  { birth_frame := 0, death_frame := -1, last_updated := 0, lifetime := -1,
    is_dead := false, has_parent := false, observer := ["num_bodies"],
    stored_data := [⟨some 2, none, some 0⟩], from_monomer := [], to_monomer := [] }

/-! ## Helper lemmas -/

lemma getD_map_lt {α β : Type} (f : α → β) (l : List α) (i : ℕ)
    (hi : i < l.length) (d : α) (d' : β) :
    (l.map f).getD i d' = f (l.getD i d) := by
  simp [List.getD_eq_getElem?_getD, List.getElem?_map,
    List.getElem?_eq_getElem hi, List.getElem?_eq_getElem (l := l) hi]

lemma getD_range_map_lt {β : Type} (f : ℕ → β) (n i : ℕ) (hi : i < n) (d : β) :
    ((List.range n).map f).getD i d = f i := by
  rw [getD_map_lt f (List.range n) i (by simpa using hi) 0 d]
  simp [List.getD_eq_getElem?_getD, List.getElem?_range hi]

/-! ## Claim C6: Neighborgrid construction errors -/

/-- C6 (counterexample): the claim says construction fails whenever
domain_size ≤ 0 on some axis or R ≤ 0; in fact R = -1 on [0,10] constructs
fine, and so does R = 1 on the zero-extent axis [0,0]. -/
theorem mkGrid_succeeds_nonpositive_cex :
    mkGrid [((0 : ℚ), 10)] (-1) [false] = .ok g6cex ∧
    isOkE (mkGrid [((0 : ℚ), 0)] 1 [false]) = true := by decide

/-- C6 (amended): construction of a Neighborgrid fails exactly when R = 0
on a nonempty axis list (numpy then computes a non-finite cell count whose
assignment into the integer array raises); for every R ≠ 0 construction
succeeds, including non-positive domain sizes and negative R. -/
theorem mkGrid_error_iff (lim : List (ℚ × ℚ)) (R : ℚ) (periodic : List Bool) :
    isOkE (mkGrid lim R periodic) = false ↔ R = 0 ∧ lim ≠ [] := by
  rw [mkGrid]
  split <;> simp_all [isOkE]

/-! ## Claim C7: cell size bound -/

/-- C7 (counterexample): a successfully constructed grid (inverted bounds
[0,-1], R = 4) whose cell size 1 is strictly below R/2 = 2, refuting
"for every successfully constructed Neighborgrid, boxSize[i] ≥ R/2". -/
theorem boxSize_negative_extent_cex :
    mkGrid [((0 : ℚ), -1)] 4 [false] = .ok g7cex ∧
    g7cex.boxSize.getD 0 0 < g7cex.R / 2 := by decide

/-- C7 (amended): for a constructed grid with R > 0, every axis whose extent
is at least R/2 (equivalently, whose cell count numD is at least 1) has cell
size boxSize[i] ≥ R/2.  (On an axis with 0 < extent < R/2, numD = 0 and the
float cell size is +inf, outside this rational model; on an axis with
negative extent the bound genuinely fails, see the counterexample.) -/
theorem boxSize_ge_half_R (lim : List (ℚ × ℚ)) (R : ℚ) (periodic : List Bool)
    (g : Neighborgrid) (hg : mkGrid lim R periodic = .ok g) (hR : 0 < R)
    (i : ℕ) (hi : i < g.dim)
    (hext : R / 2 ≤ (lim.getD i ((0 : ℚ), 0)).2 - (lim.getD i ((0 : ℚ), 0)).1) :
    R / 2 ≤ g.boxSize.getD i 0 := by
  rw [mkGrid] at hg
  split at hg
  · exact absurd hg (by simp)
  · injection hg with hg
    subst hg
    simp only at hi
    rw [getD_map_lt _ lim i hi ((0 : ℚ), 0) 0]
    set L : ℚ := (lim.getD i ((0 : ℚ), 0)).2 - (lim.getD i ((0 : ℚ), 0)).1 with hL
    have h2 : 0 < R / 2 := half_pos hR
    have hq : (1 : ℚ) ≤ L / (R / 2) := (one_le_div h2).mpr hext
    have hn : (1 : ℤ) ≤ ⌊L / (R / 2)⌋ := Int.le_floor.mpr (by exact_mod_cast hq)
    have hnQ : (0 : ℚ) < ((⌊L / (R / 2)⌋ : ℤ) : ℚ) := by exact_mod_cast hn
    have hfl : ((⌊L / (R / 2)⌋ : ℤ) : ℚ) ≤ L / (R / 2) := Int.floor_le _
    rw [le_div_iff₀ hnQ]
    calc R / 2 * ((⌊L / (R / 2)⌋ : ℤ) : ℚ)
        ≤ R / 2 * (L / (R / 2)) := by
          exact mul_le_mul_of_nonneg_left hfl h2.le
      _ = L := by field_simp; ring

/-- C7 (witness): the grid on [0,10] with R = 1 has boxSize 1/2 ≥ R/2. -/
theorem boxSize_ge_half_R_witness : (1 : ℚ) / 2 ≤ g0.boxSize.getD 0 0 :=
  boxSize_ge_half_R [((0 : ℚ), 10)] 1 [false] g0 (by decide) (by norm_num) 0
    (by decide) (by norm_num)

/-! ## Claim C10: get_groups on the empty bond dictionary -/

/-- C10: get_groups called on an empty bond dictionary fails at
initialization (the write to_group[0] = 0 indexes element 0 of a
zero-length array) rather than returning an empty partition. -/
theorem get_groups_empty_fails :
    get_groups [] = .error "IndexError: to_group[0] write on an empty array" := by
  decide

/-! ## Claim C2 (counterexample): self-loop bond dictionaries -/

/-- C2 (counterexample): the bond dictionary {0: [0], 1: []} has keys 0..1
and a symmetric adjacency, yet get_groups returns [[0]]: body 0 is searched
twice (re-enqueued through its self-bond), so len(searched) reaches
total_states while body 1 is still unassigned, and the union of the returned
groups misses id 1 — not a partition of {0, 1}. -/
theorem get_groups_selfloop_cex :
    (∀ a, a < 2 → ∀ b, b < 2 →
      (b ∈ ([[0], []] : List (List ℕ)).getD a [] ↔
       a ∈ ([[0], []] : List (List ℕ)).getD b [])) ∧
    get_groups [[0], []] = .ok [[0]] ∧
    (1 : ℕ) ∉ ([[0]] : List (List ℕ)).flatten := by decide

/-! ## Claim C5: out-of-bounds bodies during update -/

lemma updateAux_spec (g : Neighborgrid) : ∀ (bs : List Body) (m : GridMap),
    ((updateAux g bs m).2 = none ↔ ∀ b ∈ bs, inBoundsB g b = true) ∧
    ∀ c, (updateAux g bs m).1 c =
      m c ++ (bs.takeWhile (fun b => inBoundsB g b)).filter
        (fun b => decide (cellIndexD g b = c)) := by
  intro bs
  induction bs with
  | nil => intro m; exact ⟨by simp [updateAux], fun c => by simp [updateAux]⟩
  | cons b rest ih =>
    intro m
    by_cases hb : inBoundsB g b = true
    · have hconv : convertPosToIndex g b = .ok (cellIndexD g b) := by
        rw [convertPosToIndex, if_pos hb]
      constructor
      · simp only [updateAux, hconv]
        rw [(ih _).1]
        simp [hb]
      · intro c
        simp only [updateAux, hconv]
        rw [(ih _).2 c]
        simp only [List.takeWhile_cons, hb, if_true, addItemToMap]
        by_cases hc : cellIndexD g b = c
        · subst hc
          simp [List.filter_cons]
        · rw [if_neg (fun hcc => hc hcc.symm)]
          simp [List.filter_cons, hc]
    · have hconv : convertPosToIndex g b = .error "Particle is outside the set bounds" := by
        rw [convertPosToIndex, if_neg (by simpa using hb)]
      constructor
      · simp only [updateAux, hconv]
        simp [hb]
      · intro c
        simp only [updateAux, hconv]
        simp [List.takeWhile_cons, hb]

/-- C5 (counterexample): the claim states that on an out-of-bounds error no
partial grid state is observable ("the grid's map is as if the failing
update never ran").  In fact update clears the map first and keeps every
insertion made before the raise: after a successful update placed body 0 in
cell [2], a failing update leaves cell [2] empty, and a failing update whose
first body is in bounds leaves that body visible in the map. -/
theorem update_partial_state_cex :
    (update g0 [⟨0, [1]⟩]).2 = none ∧
    (update g0 [⟨0, [1]⟩]).1 [2] = [⟨0, [1]⟩] ∧
    (update g0 [⟨1, [11]⟩]).2 ≠ none ∧
    (update g0 [⟨1, [11]⟩]).1 [2] = [] ∧
    (update g0 [⟨0, [1]⟩, ⟨1, [11]⟩]).2 ≠ none ∧
    (update g0 [⟨0, [1]⟩, ⟨1, [11]⟩]).1 [2] = [⟨0, [1]⟩] := by decide

/-- C5 (amended): update(bodies) raises the out-of-bounds ValueError exactly
when some body's coordinate lies outside [min,max] on some axis (the check
runs on every axis, periodic or not); the error is fatal to that update, but
partial state is observable: the map was cleared at the start of the call
and afterwards holds, in each cell, exactly the in-bounds bodies processed
before the first failing one (all bodies, when none fails). -/
theorem update_out_of_bounds_partial_state (g : Neighborgrid) (bodies : List Body) :
    ((update g bodies).2 = none ↔ ∀ b ∈ bodies, inBoundsB g b = true) ∧
    ∀ c, (update g bodies).1 c =
      (bodies.takeWhile (fun b => inBoundsB g b)).filter
        (fun b => decide (cellIndexD g b = c)) := by
  have h := updateAux_spec g bodies emptyMap
  exact ⟨h.1, fun c => by simpa [emptyMap] using h.2 c⟩

/-! ## Claim C9: periodic flags have no effect -/

lemma updateAux_congr (g₁ g₂ : Neighborgrid)
    (h : ∀ b, convertPosToIndex g₁ b = convertPosToIndex g₂ b) :
    ∀ bodies m, updateAux g₁ bodies m = updateAux g₂ bodies m := by
  intro bodies
  induction bodies with
  | nil => intro m; rfl
  | cons b rest ih =>
    intro m
    simp only [updateAux, h b]
    cases convertPosToIndex g₂ b with
    | error e => rfl
    | ok key => exact ih _

/-- C9: the per-axis periodicity flags passed to the constructor are stored
but never read: two grids identical except for their flags yield identical
results from convertPosToIndex, update, AdjacentBoxes and getNeighborhood on
every input, and construction succeeds or fails identically. -/
theorem periodic_flags_no_effect (lim : List (ℚ × ℚ)) (R : ℚ) (p₁ p₂ : List Bool) :
    isOkE (mkGrid lim R p₁) = isOkE (mkGrid lim R p₂) ∧
    ∀ g₁ g₂, mkGrid lim R p₁ = .ok g₁ → mkGrid lim R p₂ = .ok g₂ →
      (∀ b, convertPosToIndex g₁ b = convertPosToIndex g₂ b) ∧
      (∀ bodies, update g₁ bodies = update g₂ bodies) ∧
      (∀ c, AdjacentBoxes g₁ c = AdjacentBoxes g₂ c) ∧
      (∀ m b, getNeighborhood g₁ m b = getNeighborhood g₂ m b) := by
  constructor
  · by_cases h : R = 0 ∧ lim ≠ [] <;> simp [mkGrid, h, isOkE]
  · intro g₁ g₂ h₁ h₂
    rw [mkGrid] at h₁ h₂
    by_cases h : R = 0 ∧ lim ≠ []
    · rw [if_pos h] at h₁
      exact absurd h₁ (by simp)
    · rw [if_neg h] at h₁ h₂
      injection h₁ with h₁
      injection h₂ with h₂
      subst h₁
      subst h₂
      refine ⟨fun b => rfl, fun bodies => ?_, fun c => rfl, fun m b => rfl⟩
      unfold update
      apply updateAux_congr
      intro b
      rfl

/-- C9 (witness): on the concrete domain [0,10], R = 1, the non-periodic and
periodic grids agree on a cell lookup and on an update. -/
theorem periodic_flags_no_effect_witness :
    convertPosToIndex g0 ⟨0, [1]⟩ = convertPosToIndex g0p ⟨0, [1]⟩ ∧
    update g0 [⟨0, [1]⟩] = update g0p [⟨0, [1]⟩] :=
  ⟨((periodic_flags_no_effect [((0 : ℚ), 10)] 1 [false] [true]).2 g0 g0p
      (by decide) (by decide)).1 ⟨0, [1]⟩,
   ((periodic_flags_no_effect [((0 : ℚ), 10)] 1 [false] [true]).2 g0 g0p
      (by decide) (by decide)).2.1 [⟨0, [1]⟩]⟩

/-! ## Claim C4: birth, kill, lifetime, and post-kill mutability -/

/-- C4 (counterexample): the claim says a killed ClusterInfo is immutable,
with no subsequent operation (update_data, add_monomers, remove_monomers)
changing its stored state.  In fact add_monomers and remove_monomers have no
dead check: both mutate a killed record's event logs. -/
theorem killed_record_still_mutable_cex :
    ClusterInfo.init clA 0 0 [] = .ok ciA ∧
    (ClusterInfo.add_monomers (ciA.kill 5) clA 3 0).map
      (fun c => c.from_monomer.length) = .ok 1 ∧
    (ciA.kill 5).from_monomer.length = 0 ∧
    (ClusterInfo.remove_monomers (ciA.kill 5) clA 2).map
      (fun c => c.to_monomer.length) = .ok 1 ∧
    (ciA.kill 5).to_monomer.length = 0 := by decide

/-- C4 (amended): a ClusterInfo constructed at frame f has birth_frame = f
and is not dead; after kill(d) its lifetime is exactly d - f, it is dead,
and every subsequent update_data call is a no-op.  (add_monomers,
remove_monomers and set_parent, however, still mutate the killed record —
see the counterexample.) -/
theorem birth_kill_lifetime (cluster : Cluster) (f : ℤ) (mf : ℚ)
    (observer : List String) (ci₀ : ClusterInfo)
    (h : ClusterInfo.init cluster f mf observer = .ok ci₀) :
    ci₀.birth_frame = f ∧ ci₀.is_dead = false ∧
    ∀ d, (ci₀.kill d).lifetime = d - f ∧ (ci₀.kill d).is_dead = true ∧
      ∀ c' f' mf', (ci₀.kill d).update_data c' f' mf' = .ok (ci₀.kill d) := by
  rw [ClusterInfo.init, ClusterInfo.update_data] at h
  have hb : ci₀.birth_frame = f ∧ ci₀.is_dead = false := by
    split at h
    · cases hcc : compute_coordinate observer cluster with
      | error e =>
        rw [hcc] at h
        exact absurd h (by simp [Except.map])
      | ok pd =>
        rw [hcc] at h
        simp only [Except.map] at h
        injection h with h
        subst h
        exact ⟨rfl, rfl⟩
    · injection h with h
      subst h
      exact ⟨rfl, rfl⟩
  refine ⟨hb.1, hb.2, fun d => ⟨?_, rfl, fun c' f' mf' => ?_⟩⟩
  · simp [ClusterInfo.kill, hb.1]
  · rw [ClusterInfo.update_data, if_neg]
    intro hcond
    simp [ClusterInfo.kill] at hcond

/-- C4 (witness): the record born at frame 0 and killed at frame 5 has
lifetime 5, is dead, and ignores a later update_data call. -/
theorem birth_kill_lifetime_witness :
    (ciA.kill 5).lifetime = 5 - 0 ∧ (ciA.kill 5).is_dead = true ∧
    ClusterInfo.update_data (ciA.kill 5) clA 9 0 = .ok (ciA.kill 5) :=
  ⟨((birth_kill_lifetime clA 0 0 [] ciA (by decide)).2.2 5).1,
   ((birth_kill_lifetime clA 0 0 [] ciA (by decide)).2.2 5).2.1,
   ((birth_kill_lifetime clA 0 0 [] ciA (by decide)).2.2 5).2.2 clA 9 0⟩

/-! ## Claim C8: unrecognized observables -/

lemma isOkE_map {α β : Type} (fn : α → β) (e : Except String α) :
    isOkE (e.map fn) = isOkE e := by
  cases e <;> rfl

lemma computeAux_ok (cluster : Cluster) :
    ∀ (obs : List String), recognizedOnly obs →
    ∀ d, ∃ pd, computeAux cluster obs d = .ok pd := by
  intro obs
  induction obs with
  | nil => exact fun _ d => ⟨d, rfl⟩
  | cons s rest ih =>
    intro h d
    have hrest : recognizedOnly rest := fun x hx => h x (List.mem_cons_of_mem s hx)
    rcases h s (List.mem_cons_self s rest) with h1 | h1
    · subst h1
      simp only [computeAux, if_pos rfl]
      exact ih hrest _
    · subst h1
      rw [computeAux, if_neg (by decide), if_pos rfl]
      exact ih hrest _

lemma computeAux_err (cluster : Cluster) :
    ∀ (obs : List String), ¬ recognizedOnly obs →
    ∀ d, isOkE (computeAux cluster obs d) = false := by
  intro obs
  induction obs with
  | nil =>
    intro h
    exact absurd (fun s hs => absurd hs (List.not_mem_nil s)) h
  | cons s rest ih =>
    intro h d
    by_cases h1 : s = "num_bodies"
    · subst h1
      simp only [computeAux, if_pos rfl]
      refine ih (fun hrest => h ?_) _
      intro x hx
      rcases List.mem_cons.mp hx with rfl | hx
      · exact Or.inl rfl
      · exact hrest x hx
    · by_cases h2 : s = "positions"
      · subst h2
        rw [computeAux, if_neg (by decide), if_pos rfl]
        refine ih (fun hrest => h ?_) _
        intro x hx
        rcases List.mem_cons.mp hx with rfl | hx
        · exact Or.inr rfl
        · exact hrest x hx
      · rw [computeAux, if_neg h1, if_neg h2]
        rfl

/-- C8: computing a snapshot errors exactly when the observer's observable
set contains a name outside {"num_bodies", "positions"}; with only
recognized names no snapshot computation raises.  The same holds for each
operation that computes a snapshot: add_monomers, remove_monomers,
set_parent (when it actually inserts) and update_data (when it actually
records). -/
theorem unrecognized_observable_errors :
    (∀ (observer : List String) (cluster : Cluster),
      isOkE (compute_coordinate observer cluster) = true ↔ recognizedOnly observer) ∧
    (∀ (ci : ClusterInfo) (cluster : Cluster) (n : ℕ) (mf : ℚ) (f : ℤ),
      (isOkE (ci.add_monomers cluster n mf) = true ↔ recognizedOnly ci.observer) ∧
      (isOkE (ci.remove_monomers cluster n) = true ↔ recognizedOnly ci.observer) ∧
      (ci.has_parent = false →
        (isOkE (ci.set_parent cluster) = true ↔ recognizedOnly ci.observer)) ∧
      (ci.last_updated < f → ci.is_dead = false →
        (isOkE (ci.update_data cluster f mf) = true ↔ recognizedOnly ci.observer))) := by
  have main : ∀ (observer : List String) (cluster : Cluster),
      isOkE (compute_coordinate observer cluster) = true ↔ recognizedOnly observer := by
    intro observer cluster
    constructor
    · intro hok
      by_contra hrec
      rw [compute_coordinate] at hok
      rw [computeAux_err cluster observer hrec emptyPD] at hok
      exact Bool.false_ne_true hok
    · intro hrec
      obtain ⟨pd, hpd⟩ := computeAux_ok cluster observer hrec emptyPD
      rw [compute_coordinate, hpd]
      rfl
  refine ⟨main, fun ci cluster n mf f => ⟨?_, ?_, ?_, ?_⟩⟩
  · rw [ClusterInfo.add_monomers, isOkE_map]
    exact main ci.observer cluster
  · rw [ClusterInfo.remove_monomers, isOkE_map]
    exact main ci.observer cluster
  · intro hp
    rw [ClusterInfo.set_parent, if_pos hp, isOkE_map]
    exact main ci.observer cluster
  · intro hf hd
    rw [ClusterInfo.update_data, if_pos ⟨hf, hd⟩, isOkE_map]
    exact main ci.observer cluster

/-- C8 (witness): requesting the unrecognized observable "bogus" makes the
snapshot computation fail; the recognized set {"num_bodies"} lets
add_monomers succeed. -/
theorem unrecognized_observable_errors_witness :
    isOkE (compute_coordinate ["bogus"] clA) = false ∧
    isOkE (ClusterInfo.add_monomers ciB clA 2 0) = true := by
  constructor
  · rcases Bool.eq_false_or_eq_true (isOkE (compute_coordinate ["bogus"] clA)) with hb | hb
    · exact absurd ((unrecognized_observable_errors).1 ["bogus"] clA |>.mp hb) (by decide)
    · exact hb
  · exact ((unrecognized_observable_errors).2 ciB clA 2 0 0).1.mpr (by decide)

/-! ## Claim C1: supporting lemmas -/

lemma truncQ_eq_floor (q : ℚ) (h : 0 ≤ q) : truncQ q = ⌊q⌋ := by
  rw [truncQ, if_neg (not_lt.mpr h)]

lemma takeWhile_of_all {α : Type} (p : α → Bool) :
    ∀ (l : List α), (∀ x ∈ l, p x = true) → l.takeWhile p = l := by
  intro l
  induction l with
  | nil => intro _; rfl
  | cons a t ih =>
    intro h
    rw [List.takeWhile_cons, if_pos (h a (List.mem_cons_self a t))]
    rw [ih (fun x hx => h x (List.mem_cons_of_mem a hx))]

lemma inBoundsB_iff (g : Neighborgrid) (b : Body) :
    inBoundsB g b = true ↔ ∀ i, i < g.dim →
      (g.lim.getD i ((0 : ℚ), 0)).1 ≤ b.pos.getD i 0 ∧
      b.pos.getD i 0 ≤ (g.lim.getD i ((0 : ℚ), 0)).2 := by
  simp [inBoundsB, not_or, not_lt]

lemma mkGrid_fields (lim : List (ℚ × ℚ)) (R : ℚ) (periodic : List Bool)
    (g : Neighborgrid) (hg : mkGrid lim R periodic = .ok g) :
    g.lim = lim ∧ g.R = R ∧ g.dim = lim.length ∧
    g.domain_size = lim.map (fun p => p.2 - p.1) ∧
    g.numD = lim.map (fun p => ⌊(p.2 - p.1) / (R / 2)⌋) ∧
    g.boxSize = lim.map
      (fun p => (p.2 - p.1) / ((⌊(p.2 - p.1) / (R / 2)⌋ : ℤ) : ℚ)) ∧
    g.shift = lim.map (fun p => -p.1) := by
  rw [mkGrid] at hg
  split at hg
  · exact absurd hg (by simp)
  · injection hg with hg
    subst hg
    exact ⟨rfl, rfl, rfl, rfl, rfl, rfl, rfl⟩

lemma mem_indexAdjustment : ∀ (n : ℕ) (off : List ℤ),
    off ∈ indexAdjustment n ↔
      off.length = n ∧ ∀ x ∈ off, x ∈ ([-2, -1, 0, 1, 2] : List ℤ) := by
  intro n
  induction n with
  | zero =>
    intro off
    simp only [indexAdjustment, List.mem_singleton]
    constructor
    · rintro rfl
      exact ⟨rfl, fun x hx => absurd hx (List.not_mem_nil x)⟩
    · rintro ⟨hlen, _⟩
      exact List.length_eq_zero.mp hlen
  | succ m ih =>
    intro off
    simp only [indexAdjustment, List.mem_flatten, List.mem_map]
    constructor
    · rintro ⟨l, ⟨a, ha, rfl⟩, hoff⟩
      obtain ⟨t, ht, rfl⟩ := List.mem_map.mp hoff
      obtain ⟨htlen, htmem⟩ := (ih t).mp ht
      refine ⟨by simp [htlen], fun x hx => ?_⟩
      rcases List.mem_cons.mp hx with rfl | hx
      · exact ha
      · exact htmem x hx
    · rintro ⟨hlen, hmem⟩
      cases off with
      | nil => simp at hlen
      | cons a t =>
        refine ⟨(indexAdjustment m).map (a :: ·), ⟨a, hmem a (List.mem_cons_self a t), rfl⟩, ?_⟩
        refine List.mem_map.mpr ⟨t, (ih t).mpr ⟨by simpa using hlen, fun x hx => hmem x (List.mem_cons_of_mem a hx)⟩, rfl⟩

lemma distSq_axis_lt (p q L : List ℚ) (R : ℚ) (hR : 0 < R)
    (h : distSqMI p q L < R ^ 2) :
    ∀ i, i < L.length → |minImage (p.getD i 0 - q.getD i 0) (L.getD i 0)| < R := by
  intro i hi
  have hterm : minImage (p.getD i 0 - q.getD i 0) (L.getD i 0) ^ 2 ≤ distSqMI p q L := by
    rw [distSqMI]
    apply List.single_le_sum
    · intro x hx
      obtain ⟨j, _, rfl⟩ := List.mem_map.mp hx
      positivity
    · exact List.mem_map.mpr ⟨i, List.mem_range.mpr hi, rfl⟩
  nlinarith [abs_nonneg (minImage (p.getD i 0 - q.getD i 0) (L.getD i 0)),
    sq_abs (minImage (p.getD i 0 - q.getD i 0) (L.getD i 0))]

/-- The per-axis cell-adjacency argument: if two coordinates lie in [0, L)
and their minimum-image separation is below R, then with cell size
bs = L/numD ≥ R/2 their cells differ by an offset in {-2..2} modulo numD. -/
lemma axis_adjacent (L bs R : ℚ) (n : ℤ) (x y : ℚ)
    (hn : n = ⌊L / (R / 2)⌋) (hbs : bs = L / (n : ℚ)) (h1 : 1 ≤ n) (hR : 0 < R)
    (hx0 : 0 ≤ x) (hxL : x < L) (hy0 : 0 ≤ y) (hyL : y < L)
    (hd : |minImage (y - x) L| < R) :
    ∃ k : ℤ, k ∈ ([-2, -1, 0, 1, 2] : List ℤ) ∧ ⌊y / bs⌋ = (⌊x / bs⌋ + k) % n := by
  have h2 : 0 < R / 2 := half_pos hR
  have hnQ : (0 : ℚ) < (n : ℚ) := by exact_mod_cast lt_of_lt_of_le zero_lt_one h1
  have hL : 0 < L := lt_of_lt_of_le h2 ((one_le_div h2).mp (by exact_mod_cast Int.le_floor.mp (hn ▸ h1)))
  have hbs0 : 0 < bs := hbs ▸ div_pos hL hnQ
  have hbsR : R / 2 ≤ bs := by
    have hfl : (n : ℚ) ≤ L / (R / 2) := hn ▸ Int.floor_le _
    rw [hbs, le_div_iff₀ hnQ]
    calc R / 2 * (n : ℚ) ≤ R / 2 * (L / (R / 2)) :=
          mul_le_mul_of_nonneg_left hfl h2.le
      _ = L := by field_simp; ring
  have hLn : (n : ℚ) * bs = L := by
    rw [hbs]
    field_simp
  set r : ℤ := round ((y - x) / L) with hrdef
  have hd' : |y - x - L * (r : ℚ)| < R := by
    have := hd
    rw [minImage, ← hrdef] at this
    exact this
  have hrlo : -1 ≤ r := by
    rw [hrdef, round_eq]
    apply Int.le_floor.mpr
    push_cast
    have : -1 < (y - x) / L := by
      rw [neg_lt, ← neg_div]
      apply (div_lt_one hL).mpr
      linarith
    linarith
  have hrhi : r ≤ 1 := by
    rw [hrdef, round_eq]
    have hlt : (y - x) / L < 1 := (div_lt_one hL).mpr (by linarith)
    have : (y - x) / L + 1 / 2 ≤ 3 / 2 := by linarith
    calc ⌊(y - x) / L + 1 / 2⌋ ≤ ⌊(3 : ℚ) / 2⌋ := Int.floor_le_floor this
      _ = 1 := by decide
  set mi : ℚ := y - x - L * (r : ℚ) with hmidef
  have hmi2bs : |mi| < 2 * bs := lt_of_lt_of_le hd' (by linarith)
  have hmilo : -(2 * bs) < mi := neg_lt_of_abs_lt hmi2bs
  have hmihi : mi < 2 * bs := lt_of_abs_lt hmi2bs
  have hy2 : y = x + mi + (n : ℚ) * bs * (r : ℚ) := by
    rw [hmidef, ← hLn]
    ring
  have hysplit : y / bs = (x + mi) / bs + ((n * r : ℤ) : ℚ) := by
    rw [hy2]
    push_cast
    field_simp
    ring
  have hjsplit : ⌊y / bs⌋ = ⌊(x + mi) / bs⌋ + n * r := by
    rw [hysplit, Int.floor_add_int]
  have hmidiv_lo : -2 < mi / bs := (lt_div_iff₀ hbs0).mpr (by linarith)
  have hmidiv_hi : mi / bs < 2 := (div_lt_iff₀ hbs0).mpr (by linarith)
  have hklo : ⌊x / bs⌋ - 2 ≤ ⌊(x + mi) / bs⌋ := by
    have harg : x / bs - ((2 : ℤ) : ℚ) ≤ (x + mi) / bs := by
      rw [add_div]
      push_cast
      linarith
    calc ⌊x / bs⌋ - 2 = ⌊x / bs - ((2 : ℤ) : ℚ)⌋ := (Int.floor_sub_int _ _).symm
      _ ≤ ⌊(x + mi) / bs⌋ := Int.floor_le_floor harg
  have hkhi : ⌊(x + mi) / bs⌋ ≤ ⌊x / bs⌋ + 2 := by
    have harg : (x + mi) / bs ≤ x / bs + ((2 : ℤ) : ℚ) := by
      rw [add_div]
      push_cast
      linarith
    calc ⌊(x + mi) / bs⌋ ≤ ⌊x / bs + ((2 : ℤ) : ℚ)⌋ := Int.floor_le_floor harg
      _ = ⌊x / bs⌋ + 2 := Int.floor_add_int _ _
  have hysplit : y / bs = (x + mi) / bs + ((n * r : ℤ) : ℚ) := by
    rw [hy2, add_div, add_div]
    have : (n : ℚ) * bs * (r : ℚ) / bs = ((n * r : ℤ) : ℚ) := by
      push_cast
      field_simp
      ring
    rw [this]
  have hjsplit : ⌊y / bs⌋ = ⌊(x + mi) / bs⌋ + n * r := by
    rw [hysplit, Int.floor_add_int]
  refine ⟨⌊(x + mi) / bs⌋ - ⌊x / bs⌋, ?_, ?_⟩
  · simp only [List.mem_cons, List.mem_singleton]
    omega
  · have hj0 : 0 ≤ ⌊y / bs⌋ := Int.floor_nonneg.mpr (div_nonneg hy0 hbs0.le)
    have hjn : ⌊y / bs⌋ < n := by
      apply Int.floor_lt.mpr
      rw [div_lt_iff₀ hbs0]
      rw [mul_comm]
      rw [mul_comm] at hLn
      linarith [hLn ▸ hyL]
    have hsum : ⌊x / bs⌋ + (⌊(x + mi) / bs⌋ - ⌊x / bs⌋) = ⌊y / bs⌋ + n * (-r) := by
      rw [hjsplit]
      ring
    rw [hsum, Int.add_mul_emod_self_left]
    exact (Int.emod_eq_of_lt hj0 hjn).symm

/-- C1 (amended): for a grid with R > 0 whose every axis extent is at least
R/2 (at least one cell per axis), and a configuration of distinct bodies
whose coordinates lie in [min, max) on every axis — strictly below the
maximum — loading via update succeeds and getNeighborhood(b) contains
exactly the bodies of the brute-force scan: those other than b whose
periodic minimum-image distance to b is strictly below R, for any periodic
flags.  (A body exactly at an axis maximum is stored in out-of-range cell
numD, which wrapped queries never scan: see the counterexample.) -/
theorem getNeighborhood_eq_bruteforce
    (lim : List (ℚ × ℚ)) (R : ℚ) (periodic : List Bool) (g : Neighborgrid)
    (hg : mkGrid lim R periodic = .ok g) (hR : 0 < R)
    (hext : ∀ i, i < lim.length →
      R / 2 ≤ (lim.getD i ((0 : ℚ), 0)).2 - (lim.getD i ((0 : ℚ), 0)).1)
    (bodies : List Body) (hnd : bodies.Nodup)
    (hlen : ∀ b' ∈ bodies, b'.pos.length = lim.length)
    (hin : ∀ b' ∈ bodies, ∀ i, i < lim.length →
      (lim.getD i ((0 : ℚ), 0)).1 ≤ b'.pos.getD i 0 ∧
      b'.pos.getD i 0 < (lim.getD i ((0 : ℚ), 0)).2)
    (b : Body) (hb : b ∈ bodies) :
    (update g bodies).2 = none ∧
    ∃ res, getNeighborhood g (update g bodies).1 b = .ok res ∧
      ∀ b', b' ∈ res ↔ b' ∈ bruteForceNeighbors bodies b g.domain_size g.R := by
  obtain ⟨hglim, hgR, hgdim, hgds, hgnumD, hgbox, hgshift⟩ :=
    mkGrid_fields lim R periodic g hg
  have hLgetD : ∀ i, i < lim.length → g.domain_size.getD i 0 =
      (lim.getD i ((0 : ℚ), 0)).2 - (lim.getD i ((0 : ℚ), 0)).1 := by
    intro i hi
    rw [hgds, getD_map_lt _ lim i hi ((0 : ℚ), 0) 0]
  have hNgetD : ∀ i, i < lim.length → g.numD.getD i 0 =
      ⌊((lim.getD i ((0 : ℚ), 0)).2 - (lim.getD i ((0 : ℚ), 0)).1) / (R / 2)⌋ := by
    intro i hi
    rw [hgnumD, getD_map_lt _ lim i hi ((0 : ℚ), 0) 0]
  have hBgetD : ∀ i, i < lim.length → g.boxSize.getD i 0 =
      ((lim.getD i ((0 : ℚ), 0)).2 - (lim.getD i ((0 : ℚ), 0)).1) /
        ((⌊((lim.getD i ((0 : ℚ), 0)).2 - (lim.getD i ((0 : ℚ), 0)).1) / (R / 2)⌋ : ℤ) : ℚ) := by
    intro i hi
    rw [hgbox, getD_map_lt _ lim i hi ((0 : ℚ), 0) 0]
  have hSgetD : ∀ i, i < lim.length → g.shift.getD i 0 =
      -(lim.getD i ((0 : ℚ), 0)).1 := by
    intro i hi
    rw [hgshift, getD_map_lt _ lim i hi ((0 : ℚ), 0) 0]
  have hnum1 : ∀ i, i < lim.length → (1 : ℤ) ≤
      ⌊((lim.getD i ((0 : ℚ), 0)).2 - (lim.getD i ((0 : ℚ), 0)).1) / (R / 2)⌋ := by
    intro i hi
    apply Int.le_floor.mpr
    push_cast
    exact (one_le_div (half_pos hR)).mpr (hext i hi)
  -- every body passes the bounds check
  have hbnd : ∀ b' ∈ bodies, inBoundsB g b' = true := by
    intro b' hb'
    rw [inBoundsB_iff]
    intro i hi
    rw [hgdim] at hi
    rw [hglim]
    exact ⟨(hin b' hb' i hi).1, le_of_lt (hin b' hb' i hi).2⟩
  have hupd := updateAux_spec g bodies emptyMap
  have hupd2 : (update g bodies).2 = none := (hupd.1).mpr hbnd
  have hmap : ∀ c, (update g bodies).1 c =
      bodies.filter (fun b'' => decide (cellIndexD g b'' = c)) := by
    intro c
    have h := hupd.2 c
    rw [takeWhile_of_all _ bodies hbnd] at h
    simpa [emptyMap] using h
  have hconv : convertPosToIndex g b = .ok (cellIndexD g b) := by
    rw [convertPosToIndex, if_pos (hbnd b hb)]
  have hgn : getNeighborhood g (update g bodies).1 b = .ok
      (((AdjacentBoxes g (cellIndexD g b)).map (fun box =>
        ((update g bodies).1 box).filter
          (fun bj => decide (b ≠ bj) && distLtR bj b g.domain_size g.R))).flatten) := by
    rw [getNeighborhood, hconv]
  refine ⟨hupd2, _, hgn, fun b' => ?_⟩
  have hmem : b' ∈ (((AdjacentBoxes g (cellIndexD g b)).map (fun box =>
        ((update g bodies).1 box).filter
          (fun bj => decide (b ≠ bj) && distLtR bj b g.domain_size g.R))).flatten) ↔
      (b' ∈ bodies ∧ (decide (b ≠ b') && distLtR b' b g.domain_size g.R) = true ∧
        cellIndexD g b' ∈ AdjacentBoxes g (cellIndexD g b)) := by
    rw [List.mem_flatten]
    constructor
    · rintro ⟨l, hl, hbl⟩
      obtain ⟨box, hbox, rfl⟩ := List.mem_map.mp hl
      obtain ⟨hmb, hpred⟩ := List.mem_filter.mp hbl
      rw [hmap box] at hmb
      obtain ⟨hmem2, hcell⟩ := List.mem_filter.mp hmb
      have hcell' : cellIndexD g b' = box := of_decide_eq_true hcell
      exact ⟨hmem2, hpred, hcell' ▸ hbox⟩
    · rintro ⟨hbb, hpred, hadj⟩
      refine ⟨_, List.mem_map.mpr ⟨cellIndexD g b', hadj, rfl⟩, ?_⟩
      apply List.mem_filter.mpr
      refine ⟨?_, hpred⟩
      rw [hmap]
      exact List.mem_filter.mpr ⟨hbb, by simp⟩
  rw [hmem, bruteForceNeighbors, List.mem_filter]
  constructor
  · rintro ⟨h1, h2, _⟩
    exact ⟨h1, h2⟩
  · rintro ⟨h1, h2⟩
    refine ⟨h1, h2, ?_⟩
    -- the crux: the neighbor's cell is among the scanned adjacent cells
    obtain ⟨hne, hdist⟩ := Bool.and_eq_true_iff.mp h2
    rw [distLtR] at hdist
    obtain ⟨hRpos, hsq⟩ := Bool.and_eq_true_iff.mp hdist
    have hsq' : distSqMI b'.pos b.pos g.domain_size < g.R ^ 2 :=
      of_decide_eq_true hsq
    have hdsl : g.domain_size.length = lim.length := by
      rw [hgds, List.length_map]
    have haxis : ∀ i, i < lim.length →
        |minImage (b'.pos.getD i 0 - b.pos.getD i 0) (g.domain_size.getD i 0)| < g.R := by
      intro i hi
      exact distSq_axis_lt b'.pos b.pos g.domain_size g.R
        (of_decide_eq_true hRpos) hsq' i (by rw [hdsl]; exact hi)
    -- per-axis offsets
    have Hex : ∀ i, i < lim.length → ∃ k : ℤ, k ∈ ([-2, -1, 0, 1, 2] : List ℤ) ∧
        ⌊(b'.pos.getD i 0 + g.shift.getD i 0) / g.boxSize.getD i 0⌋ =
        (⌊(b.pos.getD i 0 + g.shift.getD i 0) / g.boxSize.getD i 0⌋ + k) %
          g.numD.getD i 0 := by
      intro i hi
      have hx := hin b hb i hi
      have hy := hin b' h1 i hi
      rw [hSgetD i hi, hBgetD i hi, hNgetD i hi]
      apply axis_adjacent ((lim.getD i ((0 : ℚ), 0)).2 - (lim.getD i ((0 : ℚ), 0)).1)
        _ R _ _ _ rfl rfl (hnum1 i hi) hR
      · linarith [hx.1]
      · linarith [hx.2]
      · linarith [hy.1]
      · linarith [hy.2]
      · have heq : b'.pos.getD i 0 + -(lim.getD i ((0 : ℚ), 0)).1 -
            (b.pos.getD i 0 + -(lim.getD i ((0 : ℚ), 0)).1) =
            b'.pos.getD i 0 - b.pos.getD i 0 := by ring
        rw [heq]
        have := haxis i hi
        rw [hLgetD i hi, hgR] at this
        exact this
    -- positivity of the cell size, for truncation = floor
    have hbspos : ∀ i, i < lim.length → 0 < g.boxSize.getD i 0 := by
      intro i hi
      rw [hBgetD i hi]
      apply div_pos
      · exact lt_of_lt_of_le (half_pos hR) (hext i hi)
      · exact_mod_cast lt_of_lt_of_le zero_lt_one (hnum1 i hi)
    have hcellD : ∀ (bb : Body), bb ∈ bodies → ∀ i, i < lim.length →
        (cellIndexD g bb).getD i 0 =
        ⌊(bb.pos.getD i 0 + g.shift.getD i 0) / g.boxSize.getD i 0⌋ := by
      intro bb hbb i hi
      rw [cellIndexD, getD_range_map_lt _ g.dim i (by rw [hgdim]; exact hi) 0]
      apply truncQ_eq_floor
      apply div_nonneg _ (hbspos i hi).le
      rw [hSgetD i hi]
      linarith [(hin bb hbb i hi).1]
    -- build the offset tuple
    have Koff : ∀ i, ∃ k : ℤ, (i < lim.length → k ∈ ([-2, -1, 0, 1, 2] : List ℤ) ∧
        ⌊(b'.pos.getD i 0 + g.shift.getD i 0) / g.boxSize.getD i 0⌋ =
        (⌊(b.pos.getD i 0 + g.shift.getD i 0) / g.boxSize.getD i 0⌋ + k) %
          g.numD.getD i 0) := by
      intro i
      by_cases hi : i < lim.length
      · obtain ⟨k, hk1, hk2⟩ := Hex i hi
        exact ⟨k, fun _ => ⟨hk1, hk2⟩⟩
      · exact ⟨0, fun h => absurd h hi⟩
    choose K hK using Koff
    rw [AdjacentBoxes]
    apply List.mem_map.mpr
    refine ⟨(List.range lim.length).map K, ?_, ?_⟩
    · apply (mem_indexAdjustment g.dim _).mpr
      constructor
      · rw [List.length_map, List.length_range, hgdim]
      · intro x hx
        obtain ⟨i, hi, rfl⟩ := List.mem_map.mp hx
        exact (hK i (List.mem_range.mp hi)).1
    · -- the computed neighbor cell equals the cell of b'
      conv_rhs => rw [cellIndexD]
      rw [hgdim]
      apply List.map_congr_left
      intro i hi
      have hi' : i < lim.length := List.mem_range.mp hi
      rw [getD_range_map_lt K lim.length i hi' 0]
      rw [hcellD b hb i hi']
      rw [truncQ_eq_floor _ (by
        apply div_nonneg _ (hbspos i hi').le
        rw [hSgetD i hi']
        linarith [(hin b' h1 i hi').1])]
      exact ((hK i hi').2).symm

/-- C1 (counterexample): on [0,10] with R = 1, a body exactly at the maximum
coordinate 10 passes the bounds check and is stored in cell 20 = numD, but
every neighborhood query wraps cell lookups modulo numD and so never scans
cell 20: the body at 9.5, at distance 0.5 < R, gets an empty neighborhood
while the brute-force scan returns the boundary body. -/
theorem getNeighborhood_boundary_cex :
    mkGrid [((0 : ℚ), 10)] 1 [false] = .ok g0 ∧
    (update g0 [⟨0, [10]⟩, ⟨1, [19/2]⟩]).2 = none ∧
    getNeighborhood g0 (update g0 [⟨0, [10]⟩, ⟨1, [19/2]⟩]).1 ⟨1, [19/2]⟩ = .ok [] ∧
    bruteForceNeighbors [⟨0, [10]⟩, ⟨1, [19/2]⟩] ⟨1, [19/2]⟩ g0.domain_size g0.R =
      [⟨0, [10]⟩] := by decide

/-- C1 (witness): the spec's scenario on [0,10], R = 1 — bodies at 1 and 1.5
are neighbors, the body at 5 is not. -/
theorem getNeighborhood_eq_bruteforce_witness :
    (update g0 [⟨0, [1]⟩, ⟨1, [3/2]⟩, ⟨2, [5]⟩]).2 = none ∧
    ∃ res, getNeighborhood g0 (update g0 [⟨0, [1]⟩, ⟨1, [3/2]⟩, ⟨2, [5]⟩]).1
        ⟨0, [1]⟩ = .ok res ∧
      ∀ b', b' ∈ res ↔
        b' ∈ bruteForceNeighbors [⟨0, [1]⟩, ⟨1, [3/2]⟩, ⟨2, [5]⟩] ⟨0, [1]⟩
          g0.domain_size g0.R :=
  getNeighborhood_eq_bruteforce [((0 : ℚ), 10)] 1 [false] g0 (by decide)
    (by decide) (by decide) [⟨0, [1]⟩, ⟨1, [3/2]⟩, ⟨2, [5]⟩] (by decide)
    (by decide) (by decide) ⟨0, [1]⟩ (by decide)

/-! ## Claim C3: monotone snapshot recording -/

lemma applyOps_length (ops : List CIOp) :
    ∀ (ci : ClusterInfo), recognizedOnly ci.observer →
    ∃ out, applyOps ci ops = .ok out ∧
      out.stored_data.length = ci.stored_data.length +
        (if ci.is_dead then 0 else countRecorded ci.last_updated ops) := by
  induction ops with
  | nil =>
    intro ci h
    refine ⟨ci, rfl, ?_⟩
    cases hd : ci.is_dead <;> simp [countRecorded]
  | cons op rest ih =>
    intro ci h
    cases op with
    | upd c f mf =>
      by_cases hc : ci.last_updated < f ∧ ci.is_dead = false
      · obtain ⟨pd, hpd⟩ := computeAux_ok c ci.observer h emptyPD
        have hupd : ci.update_data c f mf = .ok
            { ci with
              stored_data := ci.stored_data ++ [{ pd with monomer_fraction := some mf }]
              last_updated := f } := by
          rw [ClusterInfo.update_data, if_pos hc, compute_coordinate, hpd]
          rfl
        obtain ⟨out, hout, hlen⟩ := ih
          { ci with
            stored_data := ci.stored_data ++ [{ pd with monomer_fraction := some mf }]
            last_updated := f } h
        refine ⟨out, ?_, ?_⟩
        · simp only [applyOps, hupd]
          exact hout
        · rw [hlen]
          simp only [List.length_append, List.length_cons, List.length_nil]
          rw [hc.2, countRecorded, if_pos hc.1]
          simp [hc.2]
          try omega
      · have hupd : ci.update_data c f mf = .ok ci := by
          rw [ClusterInfo.update_data, if_neg hc]
        obtain ⟨out, hout, hlen⟩ := ih ci h
        refine ⟨out, ?_, ?_⟩
        · simp only [applyOps, hupd]
          exact hout
        · rw [hlen]
          cases hd : ci.is_dead with
          | true => simp [hd]
          | false =>
            have hf : ¬ ci.last_updated < f := by
              intro hlt
              exact hc ⟨hlt, hd⟩
            simp only [hd, if_false, Bool.false_eq_true]
            rw [countRecorded, if_neg hf]
    | kil f =>
      obtain ⟨out, hout, hlen⟩ := ih (ci.kill f) h
      refine ⟨out, ?_, ?_⟩
      · simp only [applyOps]
        exact hout
      · rw [hlen]
        simp [ClusterInfo.kill, countRecorded]

/-- C3: update_data with a frame number not above the last recorded one
appends nothing, and across any sequence of update_data/kill calls the
stored-data length equals the number of update_data calls whose frame number
strictly exceeded all earlier ones while the record was alive, counting the
constructor's initial recording (the sentinel last-updated value is -1). -/
theorem snapshot_recording_monotone :
    (∀ (ci : ClusterInfo) (c : Cluster) (f : ℤ) (mf : ℚ),
      f ≤ ci.last_updated → ci.update_data c f mf = .ok ci) ∧
    (∀ (cluster : Cluster) (f : ℤ) (mf : ℚ) (observer : List String)
        (ops : List CIOp) (ci₀ : ClusterInfo),
      recognizedOnly observer →
      ClusterInfo.init cluster f mf observer = .ok ci₀ →
      ∃ out, applyOps ci₀ ops = .ok out ∧
        out.stored_data.length = countRecorded (-1) (CIOp.upd cluster f mf :: ops)) := by
  constructor
  · intro ci c f mf hf
    rw [ClusterInfo.update_data, if_neg]
    intro hcond
    exact absurd hcond.1 (not_lt.mpr hf)
  · intro cluster f mf observer ops ci₀ hrec hinit
    have hfields : ci₀.observer = observer ∧ ci₀.is_dead = false ∧
        ci₀.stored_data.length = (if (-1 : ℤ) < f then 1 else 0) ∧
        ci₀.last_updated = (if (-1 : ℤ) < f then f else -1) := by
      rw [ClusterInfo.init, ClusterInfo.update_data] at hinit
      by_cases hf : (-1 : ℤ) < f
      · rw [if_pos ⟨hf, rfl⟩] at hinit
        cases hcc : compute_coordinate observer cluster with
        | error e =>
          rw [hcc] at hinit
          exact absurd hinit (by simp [Except.map])
        | ok pd =>
          rw [hcc] at hinit
          simp only [Except.map] at hinit
          injection hinit with hinit
          subst hinit
          simp [hf]
      · rw [if_neg (fun hcond => hf hcond.1)] at hinit
        injection hinit with hinit
        subst hinit
        simp [hf]
    obtain ⟨hobs, hdead, hlen0, hlast⟩ := hfields
    obtain ⟨out, hout, hlen⟩ := applyOps_length ops ci₀ (by rw [hobs]; exact hrec)
    refine ⟨out, hout, ?_⟩
    rw [hlen, hdead, hlen0, hlast, countRecorded]
    by_cases hf : (-1 : ℤ) < f <;> simp [hf]

/-- C3 (witness): on the trace with frames 0 (constructor), 3, 2, 5, a kill
at 6 and an ignored 9, the stored-data length is 3 (frames 0, 3 and 5). -/
theorem snapshot_recording_monotone_witness :
    ClusterInfo.update_data ciA clA (-3) 0 = .ok ciA ∧
    ∃ out, applyOps ciA [CIOp.upd clA 3 0, CIOp.upd clA 2 0, CIOp.upd clA 5 0,
        CIOp.kil 6, CIOp.upd clA 9 0] = .ok out ∧
      out.stored_data.length =
        countRecorded (-1) (CIOp.upd clA 0 0 :: [CIOp.upd clA 3 0, CIOp.upd clA 2 0,
          CIOp.upd clA 5 0, CIOp.kil 6, CIOp.upd clA 9 0]) :=
  ⟨(snapshot_recording_monotone).1 ciA clA (-3) 0 (by decide),
   (snapshot_recording_monotone).2 clA 0 0 []
     [CIOp.upd clA 3 0, CIOp.upd clA 2 0, CIOp.upd clA 5 0, CIOp.kil 6, CIOp.upd clA 9 0]
     ciA (by decide) (by decide)⟩

/-! ## Claim C2: get_groups partition — helper lemmas -/

lemma getD_set_self {α : Type} (l : List α) (m : ℕ) (v d : α) (h : m < l.length) :
    (l.set m v).getD m d = v := by
  rw [List.getD_eq_getElem?_getD, List.getElem?_set_self (by simpa using h)]
  rfl

lemma getD_set_ne {α : Type} (l : List α) (m x : ℕ) (v d : α) (h : x ≠ m) :
    (l.set m v).getD x d = l.getD x d := by
  rw [List.getD_eq_getElem?_getD, List.getElem?_set_ne (fun he => h he.symm),
    ← List.getD_eq_getElem?_getD]

lemma getD_append_lt {α : Type} (l l' : List α) (i : ℕ) (d : α) (h : i < l.length) :
    (l ++ l').getD i d = l.getD i d := by
  rw [List.getD_eq_getElem?_getD, List.getElem?_append_left h,
    ← List.getD_eq_getElem?_getD]

lemma getD_append_len {α : Type} (l : List α) (a : α) (d : α) :
    (l ++ [a]).getD l.length d = a := by
  rw [List.getD_eq_getElem?_getD, List.getElem?_append_right (le_refl _)]
  simp

lemma getD_eq_getElem_of_lt {α : Type} (l : List α) (i : ℕ) (d : α)
    (h : i < l.length) : l.getD i d = l[i] := by
  rw [List.getD_eq_getElem?_getD, List.getElem?_eq_getElem h]
  rfl

lemma pyIdx_coe (n g : ℕ) (h : g < n) : pyIdx n (g : ℤ) = some g := by
  rw [pyIdx]
  have h1 : ¬ ((g : ℤ) < 0) := by omega
  rw [if_neg h1, if_pos ⟨by omega, by exact_mod_cast h⟩]
  simp

lemma findIdx?_some_of_mem {α : Type} (p : α → Bool) (l : List α)
    (h : ∃ x ∈ l, p x = true) :
    ∃ u, l.findIdx? p = some u ∧ u < l.length ∧ ∀ d, p (l.getD u d) = true := by
  obtain ⟨x, hx, hpx⟩ := h
  have hfind := List.findIdx?_eq_some_of_exists ⟨x, hx, hpx⟩
  obtain ⟨hlt, hp, _⟩ := List.findIdx?_eq_some_iff_getElem.mp hfind
  refine ⟨l.findIdx p, hfind, hlt, fun d => ?_⟩
  rw [getD_eq_getElem_of_lt l _ d hlt]
  exact hp

lemma adj_empty_of_ge (bd : List (List ℕ)) (a : ℕ) (h : bd.length ≤ a) :
    bd.getD a [] = [] :=
  List.getD_eq_default _ _ (by simpa using h)

lemma bonded_symm (bd : List (List ℕ))
    (hRange : ∀ a, a < bd.length → ∀ m ∈ bd.getD a [], m < bd.length)
    (hSym : ∀ a, a < bd.length → ∀ b, b < bd.length →
      (b ∈ bd.getD a [] ↔ a ∈ bd.getD b [])) :
    ∀ x y, Bonded bd x y → Bonded bd y x := by
  intro x y hxy
  rw [Bonded] at hxy ⊢
  by_cases hx : x < bd.length
  · exact (hSym x hx y (hRange x hx y hxy)).mp hxy
  · rw [adj_empty_of_ge bd x (not_lt.mp hx)] at hxy
    exact absurd hxy (List.not_mem_nil y)

lemma connected_symm (bd : List (List ℕ))
    (hRange : ∀ a, a < bd.length → ∀ m ∈ bd.getD a [], m < bd.length)
    (hSym : ∀ a, a < bd.length → ∀ b, b < bd.length →
      (b ∈ bd.getD a [] ↔ a ∈ bd.getD b [])) :
    ∀ x y, Connected bd x y → Connected bd y x := by
  intro x y h
  exact Relation.ReflTransGen.symmetric
    (fun {a b} hab => bonded_symm bd hRange hSym a b hab) h

lemma closed_list_reach (bd : List (List ℕ)) (S : List ℕ)
    (hclosed : ∀ x ∈ S, ∀ m ∈ bd.getD x [], m ∈ S) :
    ∀ x y, Connected bd x y → x ∈ S → y ∈ S := by
  intro x y h
  induction h with
  | refl => exact id
  | tail _ hzy ih =>
    intro hx
    exact hclosed _ (ih hx) _ hzy

lemma full_searched (N : ℕ) (S : List ℕ) (hnd : S.Nodup)
    (hlt : ∀ x ∈ S, x < N) (hlen : S.length = N) : ∀ x, x < N → x ∈ S := by
  intro x hx
  by_contra hxS
  have h1 : S.toFinset ⊆ Finset.range N :=
    fun a ha => Finset.mem_range.mpr (hlt a (List.mem_toFinset.mp ha))
  have h2 : S.toFinset.card = N := by
    rw [List.toFinset_card_of_nodup hnd, hlen]
  have h3 : S.toFinset = Finset.range N :=
    Finset.eq_of_subset_of_card_le h1 (by rw [h2, Finset.card_range])
  exact hxS (List.mem_toFinset.mp (h3 ▸ Finset.mem_range.mpr hx))

lemma nodup_bounded_length_le (N : ℕ) (S : List ℕ) (hnd : S.Nodup)
    (hlt : ∀ x ∈ S, x < N) : S.length ≤ N := by
  have hsub : S.toFinset ⊆ Finset.range N :=
    fun a ha => Finset.mem_range.mpr (hlt a (List.mem_toFinset.mp ha))
  have h := Finset.card_le_card hsub
  rwa [Finset.card_range, List.toFinset_card_of_nodup hnd] at h

lemma ggMember_eq_mem (gi : ℕ) (m : ℕ) (s : GGState) (hgi : gi < s.G.length)
    (hmem : m ∈ s.G.getD gi []) :
    ggMember (gi : ℤ) m s =
      .ok (if m ∉ s.searched ∧ m ∉ s.queue
           then { s with queue := s.queue ++ [m] } else s) := by
  rw [ggMember, pyIdx_coe _ _ hgi]
  show (if m ∈ s.G.getD gi [] then Except.ok s
        else if m < s.to_group.length then
          Except.ok { s with G := s.G.set gi (s.G.getD gi [] ++ [m]),
                             to_group := s.to_group.set m (gi : ℤ) }
        else Except.error "IndexError: to_group write").map (fun s1 =>
          if m ∉ s1.searched ∧ m ∉ s1.queue then
            { s1 with queue := s1.queue ++ [m] }
          else s1) = _
  rw [if_pos hmem]
  rfl

lemma ggMember_eq_assign (gi : ℕ) (m : ℕ) (s : GGState) (hgi : gi < s.G.length)
    (hmem : m ∉ s.G.getD gi []) (hlen : m < s.to_group.length)
    (hms : m ∉ s.searched) (hmq : m ∉ s.queue) :
    ggMember (gi : ℤ) m s =
      .ok { s with G := s.G.set gi (s.G.getD gi [] ++ [m]),
                   to_group := s.to_group.set m (gi : ℤ),
                   queue := s.queue ++ [m] } := by
  rw [ggMember, pyIdx_coe _ _ hgi]
  show (if m ∈ s.G.getD gi [] then Except.ok s
        else if m < s.to_group.length then
          Except.ok { s with G := s.G.set gi (s.G.getD gi [] ++ [m]),
                             to_group := s.to_group.set m (gi : ℤ) }
        else Except.error "IndexError: to_group write").map (fun s1 =>
          if m ∉ s1.searched ∧ m ∉ s1.queue then
            { s1 with queue := s1.queue ++ [m] }
          else s1) = _
  rw [if_neg hmem, if_pos hlen]
  show Except.ok (if m ∉ s.searched ∧ m ∉ s.queue then _ else _) = _
  rw [if_pos ⟨hms, hmq⟩]

lemma push_inv (bd : List (List ℕ)) (ex : List ℕ) (s : GGState)
    (hinv : GGInv bd ex s) (m : ℕ) (hmN : m < bd.length)
    (hass : tgOf s m ≠ -1) (hnotq : m ∉ s.queue) (hnots : m ∉ s.searched) :
    GGInv bd ex { s with queue := s.queue ++ [m] } := by
  obtain ⟨tglen, qlt, qass, qnd, snd, slt, sdisj, sass, tgmem, memtg, assq, sadj,
    conn, sep⟩ := hinv
  refine ⟨tglen, ?_, ?_, ?_, snd, slt, ?_, sass, tgmem, memtg, ?_, ?_, conn, sep⟩
  · intro x hx
    rcases List.mem_append.mp hx with h | h
    · exact qlt x h
    · rw [List.mem_singleton] at h
      exact h ▸ hmN
  · intro x hx
    rcases List.mem_append.mp hx with h | h
    · exact qass x h
    · rw [List.mem_singleton] at h
      exact h ▸ hass
  · rw [List.nodup_append]
    exact ⟨qnd, List.nodup_singleton m,
      fun a ha hb => hnotq ((List.mem_singleton.mp hb) ▸ ha)⟩
  · intro x hx hmem'
    rcases List.mem_append.mp hmem' with h | h
    · exact sdisj x hx h
    · exact hnots ((List.mem_singleton.mp h) ▸ hx)
  · intro x hxN hx
    rcases assq x hxN hx with h | h | h
    · exact Or.inl h
    · exact Or.inr (Or.inl (List.mem_append_left _ h))
    · exact Or.inr (Or.inr h)
  · intro x hx m' hm'
    obtain ⟨h1, h2⟩ := sadj x hx m' hm'
    refine ⟨h1, ?_⟩
    rcases h2 with h | h | h
    · exact Or.inl h
    · exact Or.inr (Or.inl (List.mem_append_left _ h))
    · exact Or.inr (Or.inr h)

lemma ggMember_inv (bd : List (List ℕ))
    (hRange : ∀ a, a < bd.length → ∀ m ∈ bd.getD a [], m < bd.length)
    (hSym : ∀ a, a < bd.length → ∀ b, b < bd.length →
      (b ∈ bd.getD a [] ↔ a ∈ bd.getD b []))
    (bod gi m : ℕ) (hbodN : bod < bd.length)
    (hm : m ∈ bd.getD bod []) (hmbod : m ≠ bod)
    (s : GGState) (hinv : GGInv bd [bod] s)
    (hbq : bod ∉ s.queue)
    (htgb : tgOf s bod = (gi : ℤ)) (hgi : gi < s.G.length)
    (hbodG : bod ∈ s.G.getD gi []) :
    ∃ s', ggMember (gi : ℤ) m s = .ok s' ∧ GGInv bd [bod] s' ∧
      s'.searched = s.searched ∧ s'.G.length = s.G.length ∧
      bod ∉ s'.queue ∧ tgOf s' bod = (gi : ℤ) ∧ bod ∈ s'.G.getD gi [] ∧
      (∀ q ∈ s.queue, q ∈ s'.queue) ∧
      (∀ x, tgOf s x ≠ -1 → tgOf s' x = tgOf s x) ∧
      tgOf s' m ≠ -1 ∧ (m ∈ s'.searched ∨ m ∈ s'.queue) := by
  have hmN : m < bd.length := hRange bod hbodN m hm
  have hbm : Bonded bd bod m := hm
  by_cases hmem : m ∈ s.G.getD gi []
  · have hassm : tgOf s m ≠ -1 := by
      rw [(hinv.memtg gi hgi m hmem).2]
      omega
    by_cases hpq : m ∉ s.searched ∧ m ∉ s.queue
    · refine ⟨_, (ggMember_eq_mem gi m s hgi hmem).trans (by rw [if_pos hpq]),
        push_inv bd [bod] s hinv m hmN hassm hpq.2 hpq.1, rfl, rfl, ?_, htgb,
        hbodG, fun q hq => List.mem_append_left _ hq, fun x _ => rfl, hassm, ?_⟩
      · intro hmem'
        rcases List.mem_append.mp hmem' with h | h
        · exact hbq h
        · exact hmbod (List.mem_singleton.mp h).symm
      · exact Or.inr (List.mem_append_right _ (List.mem_singleton.mpr rfl))
    · refine ⟨s, (ggMember_eq_mem gi m s hgi hmem).trans (by rw [if_neg hpq]),
        hinv, rfl, rfl, hbq, htgb, hbodG, fun q hq => hq, fun x _ => rfl,
        hassm, ?_⟩
      rcases not_and_or.mp hpq with h | h
      · exact Or.inl (not_not.mp h)
      · exact Or.inr (not_not.mp h)
  · -- the member joins group gi: it must be unassigned, else its group would
    -- be connected to gi's, contradicting group separation
    have htgm : tgOf s m = -1 := by
      by_contra h
      obtain ⟨gj, hgj, htgj, hmemj⟩ := hinv.tgmem m hmN h
      by_cases hgij : gj = gi
      · exact hmem (hgij ▸ hmemj)
      · exact hinv.sep gi gj hgi hgj (Ne.symm hgij) bod hbodG m hmemj
          (Relation.ReflTransGen.single hbm)
    have hms : m ∉ s.searched := fun h => (hinv.sass m h) htgm
    have hmq : m ∉ s.queue := fun h => (hinv.qass m h) htgm
    have hlen : m < s.to_group.length := by rw [hinv.tglen]; exact hmN
    refine ⟨_, ggMember_eq_assign gi m s hgi hmem hlen hms hmq, ?_⟩
    have htg'm : tgOf (⟨s.queue ++ [m], s.searched,
        s.G.set gi (s.G.getD gi [] ++ [m]), s.to_group.set m (gi : ℤ)⟩ : GGState)
        m = (gi : ℤ) :=
      getD_set_self s.to_group m _ _ hlen
    have htg'ne : ∀ x, x ≠ m → tgOf (⟨s.queue ++ [m], s.searched,
        s.G.set gi (s.G.getD gi [] ++ [m]), s.to_group.set m (gi : ℤ)⟩ : GGState)
        x = tgOf s x :=
      fun x hx => getD_set_ne s.to_group m x _ _ hx
    have hGgi : (s.G.set gi (s.G.getD gi [] ++ [m])).getD gi [] =
        s.G.getD gi [] ++ [m] := getD_set_self s.G gi _ _ hgi
    have hGne : ∀ gj, gj ≠ gi → (s.G.set gi (s.G.getD gi [] ++ [m])).getD gj [] =
        s.G.getD gj [] := fun gj h => getD_set_ne s.G gi gj _ _ h
    have hGlen : (s.G.set gi (s.G.getD gi [] ++ [m])).length = s.G.length :=
      List.length_set s.G gi _
    have hconn_to_m : ∀ z ∈ s.G.getD gi [], Connected bd z m :=
      fun z hz => (hinv.conn gi hgi z hz bod hbodG).tail hbm
    refine ⟨⟨?_, ?_, ?_, ?_, hinv.snd, hinv.slt, ?_, ?_, ?_, ?_, ?_, ?_, ?_, ?_⟩,
      rfl, hGlen, ?_, ?_, ?_, ?_, ?_, ?_, ?_⟩
    · show (s.to_group.set m (gi : ℤ)).length = bd.length
      rw [List.length_set]
      exact hinv.tglen
    · intro x hx
      rcases List.mem_append.mp hx with h | h
      · exact hinv.qlt x h
      · exact (List.mem_singleton.mp h) ▸ hmN
    · intro x hx
      rcases List.mem_append.mp hx with h | h
      · have hxm : x ≠ m := fun he => hmq (he ▸ h)
        rw [htg'ne x hxm]
        exact hinv.qass x h
      · rw [(List.mem_singleton.mp h)]
        rw [htg'm]
        omega
    · rw [List.nodup_append]
      exact ⟨hinv.qnd, List.nodup_singleton m,
        fun a ha hb => hmq ((List.mem_singleton.mp hb) ▸ ha)⟩
    · intro x hx hmem'
      rcases List.mem_append.mp hmem' with h | h
      · exact hinv.sdisj x hx h
      · exact hms ((List.mem_singleton.mp h) ▸ hx)
    · intro x hx
      have hxm : x ≠ m := fun he => hms (he ▸ hx)
      rw [htg'ne x hxm]
      exact hinv.sass x hx
    · -- tgmem
      intro x hxN hx'
      by_cases hxm : x = m
      · subst hxm
        exact ⟨gi, by rw [hGlen]; exact hgi, htg'm,
          by rw [hGgi]; exact List.mem_append_right _ (List.mem_singleton.mpr rfl)⟩
      · rw [htg'ne x hxm] at hx'
        obtain ⟨gj, hgj, htgj, hmemj⟩ := hinv.tgmem x hxN hx'
        refine ⟨gj, by rw [hGlen]; exact hgj, by rw [htg'ne x hxm]; exact htgj, ?_⟩
        by_cases hgji : gj = gi
        · subst hgji
          rw [hGgi]
          exact List.mem_append_left _ hmemj
        · rw [hGne gj hgji]
          exact hmemj
    · -- memtg
      intro gj hgj x hx
      rw [hGlen] at hgj
      by_cases hgji : gj = gi
      · subst hgji
        rw [hGgi] at hx
        rcases List.mem_append.mp hx with h | h
        · obtain ⟨hxN, htgx⟩ := hinv.memtg gj hgj x h
          have hxm : x ≠ m := fun he => hmem (he ▸ h)
          exact ⟨hxN, by rw [htg'ne x hxm]; exact htgx⟩
        · rw [List.mem_singleton.mp h]
          exact ⟨hmN, htg'm⟩
      · rw [hGne gj hgji] at hx
        obtain ⟨hxN, htgx⟩ := hinv.memtg gj hgj x hx
        have hxm : x ≠ m := by
          intro he
          subst he
          rw [htgm] at htgx
          omega
        exact ⟨hxN, by rw [htg'ne x hxm]; exact htgx⟩
    · -- assq
      intro x hxN hx
      by_cases hxm : x = m
      · subst hxm
        exact Or.inr (Or.inl (List.mem_append_right _ (List.mem_singleton.mpr rfl)))
      · rw [htg'ne x hxm] at hx
        rcases hinv.assq x hxN hx with h | h | h
        · exact Or.inl h
        · exact Or.inr (Or.inl (List.mem_append_left _ h))
        · exact Or.inr (Or.inr h)
    · -- sadj
      intro x hx m' hm'
      obtain ⟨h1, h2⟩ := hinv.sadj x hx m' hm'
      constructor
      · by_cases hm'm : m' = m
        · subst hm'm
          rw [htg'm]
          omega
        · rw [htg'ne m' hm'm]
          exact h1
      · rcases h2 with h | h | h
        · exact Or.inl h
        · exact Or.inr (Or.inl (List.mem_append_left _ h))
        · exact Or.inr (Or.inr h)
    · -- conn
      intro gj hgj x hx y hy
      rw [hGlen] at hgj
      by_cases hgji : gj = gi
      · subst hgji
        rw [hGgi] at hx hy
        rcases List.mem_append.mp hx with hx' | hx' <;>
          rcases List.mem_append.mp hy with hy' | hy'
        · exact hinv.conn gj hgj x hx' y hy'
        · rw [List.mem_singleton.mp hy']
          exact hconn_to_m x hx'
        · rw [List.mem_singleton.mp hx']
          exact connected_symm bd hRange hSym _ _ (hconn_to_m y hy')
        · rw [List.mem_singleton.mp hx', List.mem_singleton.mp hy']
          exact Relation.ReflTransGen.refl
      · rw [hGne gj hgji] at hx hy
        exact hinv.conn gj hgj x hx y hy
    · -- sep
      intro ga gb hga hgb hne x hx y hy
      rw [hGlen] at hga hgb
      by_cases hgai : ga = gi
      · subst hgai
        have hgbi : gb ≠ ga := Ne.symm hne
        rw [hGgi] at hx
        rw [hGne gb hgbi] at hy
        rcases List.mem_append.mp hx with hx' | hx'
        · exact hinv.sep ga gb hga hgb hne x hx' y hy
        · rw [List.mem_singleton.mp hx']
          intro hcon
          exact hinv.sep ga gb hga hgb hne bod hbodG y hy
            ((Relation.ReflTransGen.single hbm).trans hcon)
      · rw [hGne ga hgai] at hx
        by_cases hgbi : gb = gi
        · subst hgbi
          rw [hGgi] at hy
          rcases List.mem_append.mp hy with hy' | hy'
          · exact hinv.sep ga gb hga hgb hne x hx y hy'
          · rw [List.mem_singleton.mp hy']
            intro hcon
            exact hinv.sep ga gb hga hgb hne x hx bod hbodG
              (hcon.trans (Relation.ReflTransGen.single
                (bonded_symm bd hRange hSym bod m hbm)))
        · rw [hGne gb hgbi] at hy
          exact hinv.sep ga gb hga hgb hne x hx y hy
    · -- bod not in the new queue
      intro hmem'
      rcases List.mem_append.mp hmem' with h | h
      · exact hbq h
      · exact hmbod (List.mem_singleton.mp h).symm
    · -- bod's group is unchanged
      rw [htg'ne bod (Ne.symm hmbod)]
      exact htgb
    · rw [hGgi]
      exact List.mem_append_left _ hbodG
    · exact fun q hq => List.mem_append_left _ hq
    · intro x hx
      have hxm : x ≠ m := by
        intro he
        subst he
        exact hx htgm
      exact htg'ne x hxm
    · rw [htg'm]
      omega
    · exact Or.inr (List.mem_append_right _ (List.mem_singleton.mpr rfl))

lemma exists_unsearched (N : ℕ) (S : List ℕ) (hnd : S.Nodup)
    (hlt : ∀ x ∈ S, x < N) (hlen : S.length ≠ N) : ∃ x, x < N ∧ x ∉ S := by
  by_contra h
  push_neg at h
  have hsub : Finset.range N ⊆ S.toFinset :=
    fun a ha => List.mem_toFinset.mpr (h a (Finset.mem_range.mp ha))
  have hsub2 : S.toFinset ⊆ Finset.range N :=
    fun a ha => Finset.mem_range.mpr (hlt a (List.mem_toFinset.mp ha))
  have hcard : S.toFinset.card = S.length := List.toFinset_card_of_nodup hnd
  have h1 : N ≤ S.length := by
    have := Finset.card_le_card hsub
    rwa [Finset.card_range, hcard] at this
  have h2 : S.length ≤ N := by
    have := Finset.card_le_card hsub2
    rwa [Finset.card_range, hcard] at this
  exact hlen (le_antisymm h2 h1)

lemma ggInner_inv (bd : List (List ℕ))
    (hRange : ∀ a, a < bd.length → ∀ m ∈ bd.getD a [], m < bd.length)
    (hSym : ∀ a, a < bd.length → ∀ b, b < bd.length →
      (b ∈ bd.getD a [] ↔ a ∈ bd.getD b []))
    (bod gi : ℕ) (hbodN : bod < bd.length) (hbodadj : bod ∉ bd.getD bod []) :
    ∀ (ms : List ℕ) (s : GGState),
    (∀ x ∈ ms, x ∈ bd.getD bod []) →
    GGInv bd [bod] s →
    bod ∉ s.queue →
    tgOf s bod = (gi : ℤ) → gi < s.G.length → bod ∈ s.G.getD gi [] →
    ∃ s', ggInner (gi : ℤ) ms s = .ok s' ∧ GGInv bd [bod] s' ∧
      s'.searched = s.searched ∧ s'.G.length = s.G.length ∧
      bod ∉ s'.queue ∧ tgOf s' bod = (gi : ℤ) ∧ bod ∈ s'.G.getD gi [] ∧
      (∀ q ∈ s.queue, q ∈ s'.queue) ∧
      (∀ x, tgOf s x ≠ -1 → tgOf s' x = tgOf s x) ∧
      (∀ x ∈ ms, tgOf s' x ≠ -1 ∧ (x ∈ s'.searched ∨ x ∈ s'.queue)) := by
  intro ms
  induction ms with
  | nil =>
    intro s _ hinv hbq htgb hgi hbodG
    exact ⟨s, rfl, hinv, rfl, rfl, hbq, htgb, hbodG, fun q hq => hq,
      fun x _ => rfl, fun x hx => absurd hx (List.not_mem_nil x)⟩
  | cons m rest ih =>
    intro s hms hinv hbq htgb hgi hbodG
    have hm : m ∈ bd.getD bod [] := hms m (List.mem_cons_self m rest)
    have hmbod : m ≠ bod := fun he => hbodadj (he ▸ hm)
    obtain ⟨s1, hstep, hinv1, hse, hGl, hbq1, htgb1, hbodG1, hqmono, htgmono, hmass, hmloc⟩ :=
      ggMember_inv bd hRange hSym bod gi m hbodN hm hmbod s hinv hbq htgb hgi hbodG
    obtain ⟨s2, hrest, hinv2, hse2, hGl2, hbq2, htgb2, hbodG2, hqmono2, htgmono2, hmsfact⟩ :=
      ih s1 (fun x hx => hms x (List.mem_cons_of_mem _ hx)) hinv1 hbq1 htgb1
        (by rw [hGl]; exact hgi) hbodG1
    refine ⟨s2, ?_, hinv2, hse2.trans hse, hGl2.trans hGl, hbq2, htgb2, hbodG2,
      fun q hq => hqmono2 q (hqmono q hq), ?_, ?_⟩
    · show (ggMember (gi : ℤ) m s >>= ggInner (gi : ℤ) rest) = .ok s2
      rw [hstep]
      exact hrest
    · intro x hx
      rw [htgmono2 x (by rw [htgmono x hx]; exact hx), htgmono x hx]
    · intro x hx
      rcases List.mem_cons.mp hx with rfl | hx'
      · refine ⟨by rw [htgmono2 x hmass]; exact hmass, ?_⟩
        rcases hmloc with h | h
        · exact Or.inl (by rw [hse2]; exact h)
        · exact Or.inr (hqmono2 _ h)
      · exact hmsfact x hx'

lemma ggStep_eq (bd : List (List ℕ)) (N bod : ℕ) (rest : List ℕ) (s : GGState)
    (hlenb : bod < s.to_group.length) (hbodN : bod < bd.length) :
    ggStep bd N bod rest s =
      (ggInner (s.to_group.get ⟨bod, hlenb⟩) (bd.getD bod [])
        { s with queue := rest }).bind (fun s1 =>
        if s1.queue = [] ∧ (s1.searched ++ [bod]).length ≠ N then
          match s1.to_group.findIdx? (fun v => v = -1) with
          | some u => .ok { s1 with searched := s1.searched ++ [bod],
                                    G := s1.G ++ [[u]],
                                    to_group := s1.to_group.set u s1.G.length,
                                    queue := [u] }
          | none => .error "IndexError: np.where(to_group == -1) is empty"
        else .ok { s1 with searched := s1.searched ++ [bod] }) := by
  rw [ggStep, dif_pos hlenb]
  rw [List.get?_eq_getElem?, List.getElem?_eq_getElem hbodN]
  rw [← getD_eq_getElem_of_lt bd bod [] hbodN]
  rfl

lemma ggStep_inv (bd : List (List ℕ))
    (hRange : ∀ a, a < bd.length → ∀ m ∈ bd.getD a [], m < bd.length)
    (hSym : ∀ a, a < bd.length → ∀ b, b < bd.length →
      (b ∈ bd.getD a [] ↔ a ∈ bd.getD b []))
    (hIrr : ∀ a, a < bd.length → a ∉ bd.getD a [])
    (s : GGState) (bod : ℕ) (rest : List ℕ)
    (hinv : GGInv bd [] s) (hq : s.queue = bod :: rest) :
    ∃ s', ggStep bd bd.length bod rest s = .ok s' ∧ GGInv bd [] s' ∧
      s'.searched.length = s.searched.length + 1 ∧
      (s'.queue = [] → s'.searched.length = bd.length) := by
  have hbodq : bod ∈ s.queue := by rw [hq]; exact List.mem_cons_self bod rest
  have hbodN : bod < bd.length := hinv.qlt bod hbodq
  have hbodass : tgOf s bod ≠ -1 := hinv.qass bod hbodq
  obtain ⟨gi, hgi, htgb, hbodG⟩ := hinv.tgmem bod hbodN hbodass
  have hbs : bod ∉ s.searched := fun h => hinv.sdisj bod h hbodq
  have hbrest : bod ∉ rest := by
    have h := hinv.qnd
    rw [hq] at h
    exact (List.nodup_cons.mp h).1
  have hlenb : bod < s.to_group.length := by rw [hinv.tglen]; exact hbodN
  have hbadj : bod ∉ bd.getD bod [] := hIrr bod hbodN
  have htgel : s.to_group.get ⟨bod, hlenb⟩ = (gi : ℤ) := by
    rw [List.get_eq_getElem, ← getD_eq_getElem_of_lt s.to_group bod (-1) hlenb]
    exact htgb
  -- invariant for the popped state
  have hinv2 : GGInv bd [bod] (⟨rest, s.searched, s.G, s.to_group⟩ : GGState) := by
    refine ⟨hinv.tglen, fun x hx => hinv.qlt x (by rw [hq]; exact List.mem_cons_of_mem _ hx),
      fun x hx => hinv.qass x (by rw [hq]; exact List.mem_cons_of_mem _ hx),
      ?_, hinv.snd, hinv.slt,
      fun x hx hx2 => hinv.sdisj x hx (by rw [hq]; exact List.mem_cons_of_mem _ hx2),
      hinv.sass, hinv.tgmem, hinv.memtg, ?_, ?_, hinv.conn, hinv.sep⟩
    · have h := hinv.qnd
      rw [hq] at h
      exact (List.nodup_cons.mp h).2
    · intro x hxN hx
      rcases hinv.assq x hxN hx with h | h | h
      · exact Or.inl h
      · rw [hq] at h
        rcases List.mem_cons.mp h with rfl | h2
        · exact Or.inr (Or.inr (List.mem_singleton.mpr rfl))
        · exact Or.inr (Or.inl h2)
      · exact absurd h (List.not_mem_nil x)
    · intro x hx m hm
      obtain ⟨h1, h2⟩ := hinv.sadj x hx m hm
      refine ⟨h1, ?_⟩
      rcases h2 with h | h | h
      · exact Or.inl h
      · rw [hq] at h
        rcases List.mem_cons.mp h with rfl | h2
        · exact Or.inr (Or.inr (List.mem_singleton.mpr rfl))
        · exact Or.inr (Or.inl h2)
      · exact absurd h (List.not_mem_nil m)
  obtain ⟨s3, hinner, hinv3, hse3, hGl3, hbq3, htgb3, hbodG3, hqmono3, htgmono3, hmsfact⟩ :=
    ggInner_inv bd hRange hSym bod gi hbodN hbadj (bd.getD bod [])
      (⟨rest, s.searched, s.G, s.to_group⟩ : GGState) (fun x hx => hx) hinv2 hbrest
      htgb hgi hbodG
  have hse3' : s3.searched = s.searched := hse3
  -- invariant after appending bod to searched
  have hinv4 : GGInv bd []
      (⟨s3.queue, s3.searched ++ [bod], s3.G, s3.to_group⟩ : GGState) := by
    refine ⟨hinv3.tglen, hinv3.qlt, hinv3.qass, hinv3.qnd, ?_, ?_, ?_, ?_,
      hinv3.tgmem, hinv3.memtg, ?_, ?_, hinv3.conn, hinv3.sep⟩
    · rw [List.nodup_append]
      refine ⟨hinv3.snd, List.nodup_singleton bod, fun a ha hb => ?_⟩
      rw [List.mem_singleton] at hb
      subst hb
      rw [hse3'] at ha
      exact hbs ha
    · intro x hx
      rcases List.mem_append.mp hx with h | h
      · exact hinv3.slt x h
      · exact (List.mem_singleton.mp h) ▸ hbodN
    · intro x hx
      rcases List.mem_append.mp hx with h | h
      · exact hinv3.sdisj x h
      · rw [List.mem_singleton.mp h]
        exact hbq3
    · intro x hx
      rcases List.mem_append.mp hx with h | h
      · exact hinv3.sass x h
      · rw [List.mem_singleton.mp h]
        show tgOf s3 bod ≠ -1
        rw [htgb3]
        omega
    · intro x hxN hx
      rcases hinv3.assq x hxN hx with h | h | h
      · exact Or.inl (List.mem_append_left _ h)
      · exact Or.inr (Or.inl h)
      · exact Or.inl (List.mem_append_right _ h)
    · intro x hx m hm
      rcases List.mem_append.mp hx with h | h
      · obtain ⟨h1, h2⟩ := hinv3.sadj x h m hm
        refine ⟨h1, ?_⟩
        rcases h2 with h' | h' | h'
        · exact Or.inl (List.mem_append_left _ h')
        · exact Or.inr (Or.inl h')
        · exact Or.inl (List.mem_append_right _ h')
      · rw [List.mem_singleton] at h
        subst h
        obtain ⟨h1, h2⟩ := hmsfact m hm
        refine ⟨h1, ?_⟩
        rcases h2 with h' | h'
        · exact Or.inl (List.mem_append_left _ h')
        · exact Or.inr (Or.inl h')
  have hs4len : (s3.searched ++ [bod]).length = s.searched.length + 1 := by
    rw [List.length_append, hse3']
    rfl
  by_cases hcond : s3.queue = [] ∧ (s3.searched ++ [bod]).length ≠ bd.length
  · -- reseed at the first unassigned body
    obtain ⟨x0, hx0N, hx0S⟩ := exists_unsearched bd.length (s3.searched ++ [bod])
      hinv4.snd hinv4.slt hcond.2
    have hx0tg : tgOf s3 x0 = -1 := by
      by_contra h
      rcases hinv4.assq x0 hx0N h with h' | h' | h'
      · exact hx0S h'
      · rw [hcond.1] at h'
        exact absurd h' (List.not_mem_nil x0)
      · exact absurd h' (List.not_mem_nil x0)
    have hx0len : x0 < s3.to_group.length := by
      rw [hinv3.tglen]
      exact hx0N
    have hel : s3.to_group.get ⟨x0, hx0len⟩ = -1 := by
      rw [List.get_eq_getElem, ← getD_eq_getElem_of_lt s3.to_group x0 (-1) hx0len]
      exact hx0tg
    obtain ⟨u, hfind, hulen, huval⟩ := findIdx?_some_of_mem
      (fun v => decide (v = -1)) s3.to_group
      ⟨s3.to_group.get ⟨x0, hx0len⟩, List.get_mem s3.to_group x0 hx0len,
        by rw [hel]; rfl⟩
    have hutg : tgOf s3 u = -1 := of_decide_eq_true (huval (-1))
    have huN : u < bd.length := by
      rw [← hinv3.tglen]
      exact hulen
    have huS : u ∉ s3.searched ++ [bod] := fun h => (hinv4.sass u h) hutg
    have huq : u ∉ s3.queue := fun h => (hinv3.qass u h) hutg
    -- the reseeded state
    have htg5u : (s3.to_group.set u ((s3.G.length : ℕ) : ℤ)).getD u (-1) =
        ((s3.G.length : ℕ) : ℤ) := getD_set_self s3.to_group u _ _ hulen
    have htg5ne : ∀ x, x ≠ u →
        (s3.to_group.set u ((s3.G.length : ℕ) : ℤ)).getD x (-1) =
        s3.to_group.getD x (-1) := fun x hx => getD_set_ne s3.to_group u x _ _ hx
    have hG5lt : ∀ gj : ℕ, gj < s3.G.length →
        (s3.G ++ [[u]]).getD gj [] = s3.G.getD gj [] :=
      fun gj h => getD_append_lt s3.G [[u]] gj [] h
    have hG5len : (s3.G ++ [[u]]).getD s3.G.length [] = [u] :=
      getD_append_len s3.G [u] []
    have hG5L : (s3.G ++ [[u]]).length = s3.G.length + 1 := by
      rw [List.length_append]
      rfl
    -- searched is closed under adjacency once the queue is empty
    have hclosed : ∀ x ∈ s3.searched ++ [bod], ∀ m ∈ bd.getD x [],
        m ∈ s3.searched ++ [bod] := by
      intro x hx m hm
      obtain ⟨_, h2⟩ := hinv4.sadj x hx m hm
      rcases h2 with h | h | h
      · exact h
      · rw [hcond.1] at h
        exact absurd h (List.not_mem_nil m)
      · exact absurd h (List.not_mem_nil m)
    have hreach : ∀ x ∈ s3.searched ++ [bod], ∀ y, Connected bd x y →
        y ∈ s3.searched ++ [bod] :=
      fun x hx y hc => closed_list_reach bd _ hclosed x y hc hx
    have hassS : ∀ x, x < bd.length → tgOf s3 x ≠ -1 → x ∈ s3.searched ++ [bod] := by
      intro x hxN hx
      rcases hinv4.assq x hxN hx with h | h | h
      · exact h
      · rw [hcond.1] at h
        exact absurd h (List.not_mem_nil x)
      · exact absurd h (List.not_mem_nil x)
    have hinv5 : GGInv bd [] (⟨[u], s3.searched ++ [bod], s3.G ++ [[u]],
        s3.to_group.set u ((s3.G.length : ℕ) : ℤ)⟩ : GGState) := by
      refine ⟨?_, ?_, ?_, List.nodup_singleton u, hinv4.snd, hinv4.slt, ?_, ?_,
        ?_, ?_, ?_, ?_, ?_, ?_⟩
      · show (s3.to_group.set u _).length = bd.length
        rw [List.length_set]
        exact hinv3.tglen
      · intro x hx
        rw [List.mem_singleton.mp hx]
        exact huN
      · intro x hx
        rw [List.mem_singleton.mp hx]
        show (s3.to_group.set u _).getD u (-1) ≠ -1
        rw [htg5u]
        omega
      · intro x hx hx2
        rw [List.mem_singleton] at hx2
        subst hx2
        exact huS hx
      · intro x hx
        have hxu : x ≠ u := fun he => huS (he ▸ hx)
        show (s3.to_group.set u _).getD x (-1) ≠ -1
        rw [htg5ne x hxu]
        exact hinv4.sass x hx
      · -- tgmem
        intro x hxN hx
        by_cases hxu : x = u
        · subst hxu
          refine ⟨s3.G.length, by rw [hG5L]; omega, htg5u, by rw [hG5len]; exact List.mem_singleton.mpr rfl⟩
        · have hx' : tgOf s3 x ≠ -1 := by
            intro hc
            apply hx
            show (s3.to_group.set u ((s3.G.length : ℕ) : ℤ)).getD x (-1) = -1
            rw [htg5ne x hxu]
            exact hc
          obtain ⟨gj, hgj, htgj, hmemj⟩ := hinv3.tgmem x hxN hx'
          refine ⟨gj, by rw [hG5L]; omega, ?_, by rw [hG5lt gj hgj]; exact hmemj⟩
          show (s3.to_group.set u _).getD x (-1) = (gj : ℤ)
          rw [htg5ne x hxu]
          exact htgj
      · -- memtg
        intro gj hgj x hx
        rw [hG5L] at hgj
        rcases Nat.lt_succ_iff_lt_or_eq.mp hgj with h | h
        · rw [hG5lt gj h] at hx
          obtain ⟨hxN, htgx⟩ := hinv3.memtg gj h x hx
          have hxu : x ≠ u := by
            intro he
            subst he
            rw [hutg] at htgx
            omega
          refine ⟨hxN, ?_⟩
          show (s3.to_group.set u _).getD x (-1) = (gj : ℤ)
          rw [htg5ne x hxu]
          exact htgx
        · subst h
          rw [hG5len] at hx
          rw [List.mem_singleton.mp hx]
          exact ⟨huN, htg5u⟩
      · -- assq
        intro x hxN hx
        by_cases hxu : x = u
        · subst hxu
          exact Or.inr (Or.inl (List.mem_singleton.mpr rfl))
        · have hx' : tgOf s3 x ≠ -1 := by
            intro hc
            apply hx
            show (s3.to_group.set u ((s3.G.length : ℕ) : ℤ)).getD x (-1) = -1
            rw [htg5ne x hxu]
            exact hc
          exact Or.inl (hassS x hxN hx')
      · -- sadj
        intro x hx m hm
        obtain ⟨h1, h2⟩ := hinv4.sadj x hx m hm
        have hmu : m ≠ u := by
          intro he
          subst he
          exact h1 hutg
        constructor
        · show (s3.to_group.set u _).getD m (-1) ≠ -1
          rw [htg5ne m hmu]
          exact h1
        · rcases h2 with h | h | h
          · exact Or.inl h
          · rw [hcond.1] at h
            exact absurd h (List.not_mem_nil m)
          · exact absurd h (List.not_mem_nil m)
      · -- conn
        intro gj hgj x hx y hy
        rw [hG5L] at hgj
        rcases Nat.lt_succ_iff_lt_or_eq.mp hgj with h | h
        · rw [hG5lt gj h] at hx hy
          exact hinv3.conn gj h x hx y hy
        · subst h
          rw [hG5len] at hx hy
          rw [List.mem_singleton.mp hx, List.mem_singleton.mp hy]
          exact Relation.ReflTransGen.refl
      · -- sep
        intro ga gb hga hgb hne x hx y hy
        rw [hG5L] at hga hgb
        rcases Nat.lt_succ_iff_lt_or_eq.mp hga with ha | ha <;>
          rcases Nat.lt_succ_iff_lt_or_eq.mp hgb with hb | hb
        · rw [hG5lt ga ha] at hx
          rw [hG5lt gb hb] at hy
          exact hinv3.sep ga gb ha hb hne x hx y hy
        · subst hb
          rw [hG5lt ga ha] at hx
          rw [hG5len] at hy
          rw [List.mem_singleton.mp hy]
          intro hcon
          have hxS : x ∈ s3.searched ++ [bod] := by
            apply hassS x (hinv3.memtg ga ha x hx).1
            rw [(hinv3.memtg ga ha x hx).2]
            omega
          exact huS (hreach x hxS u hcon)
        · subst ha
          rw [hG5lt gb hb] at hy
          rw [hG5len] at hx
          rw [List.mem_singleton.mp hx]
          intro hcon
          have hyS : y ∈ s3.searched ++ [bod] := by
            apply hassS y (hinv3.memtg gb hb y hy).1
            rw [(hinv3.memtg gb hb y hy).2]
            omega
          exact huS (hreach y hyS u (connected_symm bd hRange hSym _ _ hcon))
        · subst ha
          subst hb
          exact absurd rfl hne
    refine ⟨_, ?_, hinv5, hs4len, fun h => absurd h (by simp)⟩
    rw [ggStep_eq bd bd.length bod rest s hlenb hbodN, htgel]
    rw [hinner]
    show (if s3.queue = [] ∧ (s3.searched ++ [bod]).length ≠ bd.length then _ else _) = _
    rw [if_pos hcond, hfind]
  · -- no reseed: the popped body just moves to searched
    refine ⟨_, ?_, hinv4, hs4len, ?_⟩
    · rw [ggStep_eq bd bd.length bod rest s hlenb hbodN, htgel]
      rw [hinner]
      show (if s3.queue = [] ∧ (s3.searched ++ [bod]).length ≠ bd.length then _ else _) = _
      rw [if_neg hcond]
    · intro h
      rcases not_and_or.mp hcond with h' | h'
      · exact absurd h h'
      · exact not_not.mp h'

lemma ggLoop_ok (bd : List (List ℕ))
    (hRange : ∀ a, a < bd.length → ∀ m ∈ bd.getD a [], m < bd.length)
    (hSym : ∀ a, a < bd.length → ∀ b, b < bd.length →
      (b ∈ bd.getD a [] ↔ a ∈ bd.getD b []))
    (hIrr : ∀ a, a < bd.length → a ∉ bd.getD a []) :
    ∀ (fuel : ℕ) (s : GGState), GGInv bd [] s →
    bd.length - s.searched.length < fuel →
    (s.queue = [] → s.searched.length = bd.length) →
    ∃ Gres, ggLoop bd bd.length fuel s = .ok Gres ∧
      (∀ x, x < bd.length → ∃ gi : ℕ, gi < Gres.length ∧ x ∈ Gres.getD gi []) ∧
      (∀ gi : ℕ, gi < Gres.length → ∀ x ∈ Gres.getD gi [], x < bd.length) ∧
      (∀ gi gj : ℕ, gi < Gres.length → gj < Gres.length →
        ∀ x, x ∈ Gres.getD gi [] → x ∈ Gres.getD gj [] → gi = gj) ∧
      (∀ gi : ℕ, gi < Gres.length → ∀ x ∈ Gres.getD gi [], ∀ y ∈ Gres.getD gi [],
        Connected bd x y) ∧
      (∀ gi gj : ℕ, gi < Gres.length → gj < Gres.length → gi ≠ gj →
        ∀ x ∈ Gres.getD gi [], ∀ y ∈ Gres.getD gj [], ¬ Connected bd x y) := by
  intro fuel
  induction fuel with
  | zero =>
    intro s _ hf _
    exact absurd hf (Nat.not_lt_zero _)
  | succ fuel ih =>
    intro s hinv hf hqlen
    cases hq : s.queue with
    | nil =>
      have hslen : s.searched.length = bd.length := hqlen hq
      have hcov : ∀ x, x < bd.length → x ∈ s.searched :=
        full_searched bd.length s.searched hinv.snd hinv.slt hslen
      refine ⟨s.G, ?_, ?_, ?_, ?_, hinv.conn, hinv.sep⟩
      · show (match s.queue with
          | [] => Except.ok s.G
          | bod :: rest => ggStep bd bd.length bod rest s >>=
              ggLoop bd bd.length fuel) = Except.ok s.G
        rw [hq]
      · intro x hxN
        obtain ⟨gi, hgi, _, hmem⟩ := hinv.tgmem x hxN (hinv.sass x (hcov x hxN))
        exact ⟨gi, hgi, hmem⟩
      · exact fun gi hgi x hx => (hinv.memtg gi hgi x hx).1
      · intro gi gj hgi hgj x hxi hxj
        have h1 := (hinv.memtg gi hgi x hxi).2
        have h2 := (hinv.memtg gj hgj x hxj).2
        rw [h1] at h2
        exact_mod_cast h2
    | cons bod rest =>
      obtain ⟨s', hstep, hinv', hslen, hq'⟩ :=
        ggStep_inv bd hRange hSym hIrr s bod rest hinv hq
      have hbodq : bod ∈ s.queue := by
        rw [hq]
        exact List.mem_cons_self bod rest
      have hlt : s.searched.length < bd.length := by
        rcases lt_or_eq_of_le
          (nodup_bounded_length_le bd.length s.searched hinv.snd hinv.slt) with h | h
        · exact h
        · exact absurd hbodq (hinv.sdisj bod
            (full_searched bd.length s.searched hinv.snd hinv.slt h bod
              (hinv.qlt bod hbodq)))
      obtain ⟨Gres, hloop, hP1, hP2, hP3, hP4, hP5⟩ := ih s' hinv' (by omega) hq'
      refine ⟨Gres, ?_, hP1, hP2, hP3, hP4, hP5⟩
      show (match s.queue with
        | [] => Except.ok s.G
        | bod :: rest => ggStep bd bd.length bod rest s >>=
            ggLoop bd bd.length fuel) = Except.ok Gres
      rw [hq]
      show ggStep bd bd.length bod rest s >>= ggLoop bd bd.length fuel = Except.ok Gres
      rw [hstep]
      exact hloop

/-- C2 (amended): for every bond dictionary with keys 0..N-1 (N ≥ 1),
symmetric adjacency, and no self-bonds (no id adjacent to itself),
get_groups returns a partition of {0,..,N-1}: every id is in some group,
group members are valid ids, groups are pairwise disjoint, any two ids in
the same group are connected by the bond relation, and ids in different
groups are never connected.  (Without the no-self-bond condition the
claim fails: see the counterexample.) -/
theorem get_groups_partition (bd : List (List ℕ)) (hN : 0 < bd.length)
    (hRange : ∀ a, a < bd.length → ∀ m ∈ bd.getD a [], m < bd.length)
    (hSym : ∀ a, a < bd.length → ∀ b, b < bd.length →
      (b ∈ bd.getD a [] ↔ a ∈ bd.getD b []))
    (hIrr : ∀ a, a < bd.length → a ∉ bd.getD a []) :
    ∃ G, get_groups bd = .ok G ∧
      (∀ x, x < bd.length → ∃ gi : ℕ, gi < G.length ∧ x ∈ G.getD gi []) ∧
      (∀ gi : ℕ, gi < G.length → ∀ x ∈ G.getD gi [], x < bd.length) ∧
      (∀ gi gj : ℕ, gi < G.length → gj < G.length →
        ∀ x, x ∈ G.getD gi [] → x ∈ G.getD gj [] → gi = gj) ∧
      (∀ gi : ℕ, gi < G.length → ∀ x ∈ G.getD gi [], ∀ y ∈ G.getD gi [],
        Connected bd x y) ∧
      (∀ gi gj : ℕ, gi < G.length → gj < G.length → gi ≠ gj →
        ∀ x ∈ G.getD gi [], ∀ y ∈ G.getD gj [], ¬ Connected bd x y) := by
  have hNne : ¬ (bd.length = 0) := by omega
  have hreplen : (List.replicate bd.length (-1 : ℤ)).length = bd.length :=
    List.length_replicate _ _
  have htg00 : ((List.replicate bd.length (-1 : ℤ)).set 0 0).getD 0 (-1) = 0 :=
    getD_set_self _ 0 0 (-1) (by rw [hreplen]; exact hN)
  have htg0ne : ∀ x, x ≠ 0 →
      ((List.replicate bd.length (-1 : ℤ)).set 0 0).getD x (-1) = -1 := by
    intro x hx
    rw [getD_set_ne _ 0 x _ _ hx]
    rcases lt_or_ge x bd.length with h | h
    · rw [getD_eq_getElem_of_lt _ x (-1) (by rw [hreplen]; exact h)]
      simp
    · exact List.getD_eq_default _ _ (by rw [hreplen]; exact h)
  have hinv0 : GGInv bd [] (⟨[0], [], [[0]],
      (List.replicate bd.length (-1 : ℤ)).set 0 0⟩ : GGState) := by
    refine ⟨by rw [List.length_set]; exact hreplen, ?_, ?_,
      List.nodup_singleton 0, List.nodup_nil,
      fun x hx => absurd hx (List.not_mem_nil x),
      fun x hx => absurd hx (List.not_mem_nil x),
      fun x hx => absurd hx (List.not_mem_nil x), ?_, ?_, ?_,
      fun x hx => absurd hx (List.not_mem_nil x), ?_, ?_⟩
    · intro x hx
      rw [List.mem_singleton.mp hx]
      exact hN
    · intro x hx
      rw [List.mem_singleton.mp hx]
      show ((List.replicate bd.length (-1 : ℤ)).set 0 0).getD 0 (-1) ≠ -1
      rw [htg00]
      omega
    · intro x hxN hx
      by_cases hx0 : x = 0
      · subst hx0
        refine ⟨0, one_pos, ?_, ?_⟩
        · show ((List.replicate bd.length (-1 : ℤ)).set 0 0).getD 0 (-1) = ((0 : ℕ) : ℤ)
          rw [htg00]
          rfl
        · show (0 : ℕ) ∈ ([[0]] : List (List ℕ)).getD 0 []
          exact List.mem_singleton.mpr rfl
      · exact absurd (htg0ne x hx0) hx
    · intro gi hgi x hx
      have hgi1 : gi < 1 := hgi
      have hgi0 : gi = 0 := by omega
      subst hgi0
      have hx0 : x = 0 := List.mem_singleton.mp hx
      subst hx0
      refine ⟨hN, ?_⟩
      show ((List.replicate bd.length (-1 : ℤ)).set 0 0).getD 0 (-1) = ((0 : ℕ) : ℤ)
      rw [htg00]
      rfl
    · intro x hxN hx
      by_cases hx0 : x = 0
      · subst hx0
        exact Or.inr (Or.inl (List.mem_singleton.mpr rfl))
      · exact absurd (htg0ne x hx0) hx
    · intro gi hgi x hx y hy
      have hgi1 : gi < 1 := hgi
      have hgi0 : gi = 0 := by omega
      subst hgi0
      rw [List.mem_singleton.mp hx, List.mem_singleton.mp hy]
      exact Relation.ReflTransGen.refl
    · intro gi gj hgi hgj hne x hx y hy
      have hgi1 : gi < 1 := hgi
      have hgj1 : gj < 1 := hgj
      exact absurd (by omega : gi = gj) hne
  obtain ⟨G, hloop, hP1, hP2, hP3, hP4, hP5⟩ :=
    ggLoop_ok bd hRange hSym hIrr (3 * bd.length + 4)
      (⟨[0], [], [[0]], (List.replicate bd.length (-1 : ℤ)).set 0 0⟩ : GGState)
      hinv0 (by simp; omega) (fun h => absurd h (by simp))
  refine ⟨G, ?_, hP1, hP2, hP3, hP4, hP5⟩
  rw [get_groups]
  show (if bd.length = 0 then _ else _) = _
  rw [if_neg hNne]
  exact hloop

/-- C2 (witness): on the bond dictionary {0:[1], 1:[0], 2:[]} (keys 0..2,
symmetric, no self-bonds) get_groups returns a partition of {0,1,2} into
connected groups. -/
theorem get_groups_partition_witness :
    ∃ G, get_groups [[1], [0], []] = .ok G ∧
      (∀ x, x < 3 → ∃ gi : ℕ, gi < G.length ∧ x ∈ G.getD gi []) ∧
      (∀ gi : ℕ, gi < G.length → ∀ x ∈ G.getD gi [], x < 3) ∧
      (∀ gi gj : ℕ, gi < G.length → gj < G.length →
        ∀ x, x ∈ G.getD gi [] → x ∈ G.getD gj [] → gi = gj) ∧
      (∀ gi : ℕ, gi < G.length → ∀ x ∈ G.getD gi [], ∀ y ∈ G.getD gi [],
        Connected [[1], [0], []] x y) ∧
      (∀ gi gj : ℕ, gi < G.length → gj < G.length → gi ≠ gj →
        ∀ x ∈ G.getD gi [], ∀ y ∈ G.getD gj [], ¬ Connected [[1], [0], []] x y) :=
  get_groups_partition [[1], [0], []] (by decide) (by decide) (by decide) (by decide)

end SAASH
